import Mathlib

/-!
Verification of the SoulDungeonBE real-time session layer.

The development embeds the two Colyseus room classes (MatchmakingRoom and
GameRoom) and their replicated state documents as pure Lean functions over
explicit state records.  A JS Map is embedded as an association list in
insertion order: set updates in place when the key is present (preserving
order) and appends otherwise, get returns the first entry with the key,
delete removes every entry with the key.
-/

namespace SDBE

/-- Lookup in a JS-Map-style association list: first entry with the key. -/
def mapGet {α : Type} (m : List (String × α)) (k : String) : Option α :=
  (m.find? (fun e => e.1 == k)).map (fun e => e.2)

/-- JS Map.has. -/
def mapHas {α : Type} (m : List (String × α)) (k : String) : Bool :=
  (mapGet m k).isSome

/-- Update-in-place of every entry holding the key (JS object mutation
through a reference obtained from Map.get). -/
def mapUpdate {α : Type} (m : List (String × α)) (k : String) (f : α → α) :
    List (String × α) :=
  m.map (fun e => if e.1 == k then (e.1, f e.2) else e)

/-- JS Map.set: overwrite in place when present, append otherwise. -/
def mapSet {α : Type} (m : List (String × α)) (k : String) (v : α) :
    List (String × α) :=
  if mapHas m k then mapUpdate m k (fun _ => v) else m ++ [(k, v)]

/-- JS Map.delete. -/
def mapDelete {α : Type} (m : List (String × α)) (k : String) :
    List (String × α) :=
  m.filter (fun e => !(e.1 == k))

theorem mapGet_nil {α : Type} (k : String) :
    mapGet ([] : List (String × α)) k = none := rfl

theorem mapGet_cons {α : Type} (k1 : String) (v : α) (m : List (String × α))
    (k : String) :
    mapGet ((k1, v) :: m) k = if k1 = k then some v else mapGet m k := by
  by_cases h : k1 = k <;> simp [mapGet, List.find?_cons, h]

theorem mapUpdate_cons {α : Type} (k1 : String) (v : α) (m : List (String × α))
    (k : String) (f : α → α) :
    mapUpdate ((k1, v) :: m) k f
      = (k1, if k1 = k then f v else v) :: mapUpdate m k f := by
  by_cases h : k1 = k <;> simp [mapUpdate, h]

theorem mapGet_mapUpdate {α : Type} (m : List (String × α)) (k : String)
    (f : α → α) (k' : String) :
    mapGet (mapUpdate m k f) k'
      = if k = k' then (mapGet m k').map f else mapGet m k' := by
  induction m with
  | nil => by_cases h : k = k' <;> simp [mapUpdate, mapGet, h]
  | cons e m ih =>
    obtain ⟨k1, v⟩ := e
    rw [mapUpdate_cons, mapGet_cons, mapGet_cons]
    by_cases h1 : k1 = k'
    · subst h1
      by_cases h2 : k = k1
      · subst h2
        simp
      · have h3 : ¬ k1 = k := fun hh => h2 hh.symm
        simp [h2, h3]
    · by_cases h2 : k = k'
      · subst h2
        simp [h1, ih]
      · simp [h1, h2, ih]

theorem mapGet_append_single {α : Type} (m : List (String × α)) (k : String)
    (v : α) (k' : String) :
    mapGet (m ++ [(k, v)]) k'
      = if mapHas m k' then mapGet m k'
        else if k = k' then some v else none := by
  induction m with
  | nil => by_cases h : k = k' <;> simp [mapGet, mapHas, List.find?_cons, h]
  | cons e m ih =>
    obtain ⟨k1, v1⟩ := e
    rw [List.cons_append, mapGet_cons, mapGet_cons]
    by_cases h1 : k1 = k'
    · simp [mapHas, mapGet_cons, h1]
    · simp [mapHas, mapGet_cons, h1, ih]

theorem mapGet_mapSet {α : Type} (m : List (String × α)) (k : String) (v : α)
    (k' : String) :
    mapGet (mapSet m k v) k' = if k = k' then some v else mapGet m k' := by
  unfold mapSet
  by_cases hh : mapHas m k
  · rw [if_pos hh, mapGet_mapUpdate]
    by_cases h : k = k'
    · subst h
      obtain ⟨w, hw⟩ := Option.isSome_iff_exists.1 hh
      simp [hw]
    · simp [h]
  · rw [if_neg hh, mapGet_append_single]
    have hh2 : mapHas m k = false := by
      simpa using hh
    by_cases h : k = k'
    · subst h
      simp [hh2]
    · by_cases h2 : mapHas m k' = true
      · simp [h2, h]
      · have h4 : mapHas m k' = false := by
          simpa using h2
        have h3 : mapGet m k' = none := by
          simpa [mapHas] using h4
        simp [h4, h, h3]

theorem mapDelete_cons {α : Type} (k1 : String) (v : α) (m : List (String × α))
    (k : String) :
    mapDelete ((k1, v) :: m) k
      = if k1 = k then mapDelete m k else (k1, v) :: mapDelete m k := by
  by_cases h : k1 = k <;> simp [mapDelete, h]

theorem mapGet_mapDelete {α : Type} (m : List (String × α)) (k : String)
    (k' : String) :
    mapGet (mapDelete m k) k' = if k = k' then none else mapGet m k' := by
  induction m with
  | nil => by_cases h : k = k' <;> simp [mapDelete, mapGet, h]
  | cons e m ih =>
    obtain ⟨k1, v⟩ := e
    rw [mapDelete_cons]
    by_cases h1 : k1 = k
    · rw [if_pos h1, ih, mapGet_cons]
      by_cases h2 : k = k'
      · simp [h2]
      · have h3 : ¬ k1 = k' := fun hh => h2 (h1.symm.trans hh)
        simp [h2, h3]
    · rw [if_neg h1, mapGet_cons, mapGet_cons, ih]
      by_cases h2 : k1 = k'
      · subst h2
        have h3 : ¬ k = k1 := fun hh => h1 hh.symm
        simp [h3]
      · simp [h2]

theorem mapHas_mapUpdate {α : Type} (m : List (String × α)) (k : String)
    (f : α → α) (k' : String) :
    mapHas (mapUpdate m k f) k' = mapHas m k' := by
  unfold mapHas
  rw [mapGet_mapUpdate]
  by_cases h : k = k' <;> simp [h]

theorem mapHas_mapSet {α : Type} (m : List (String × α)) (k : String) (v : α)
    (k' : String) :
    mapHas (mapSet m k v) k' = (decide (k = k') || mapHas m k') := by
  unfold mapHas
  rw [mapGet_mapSet]
  by_cases h : k = k' <;> simp [h]

theorem mapHas_mapDelete {α : Type} (m : List (String × α)) (k : String)
    (k' : String) :
    mapHas (mapDelete m k) k' = (!(decide (k = k')) && mapHas m k') := by
  unfold mapHas
  rw [mapGet_mapDelete]
  by_cases h : k = k' <;> simp [h]

theorem mapUpdate_of_not_has {α : Type} (m : List (String × α)) (k : String)
    (f : α → α) (h : mapHas m k = false) : mapUpdate m k f = m := by
  induction m with
  | nil => rfl
  | cons e m ih =>
    obtain ⟨k1, v⟩ := e
    by_cases h1 : k1 = k
    · exfalso
      simp [mapHas, mapGet_cons, h1] at h
    · rw [mapUpdate_cons, if_neg h1]
      simp [mapHas, mapGet_cons, h1] at h
      rw [ih (by simp [mapHas, h])]

theorem mem_of_mem_mapDelete {α : Type} {m : List (String × α)} {k : String}
    {e : String × α} (h : e ∈ mapDelete m k) : e ∈ m :=
  (List.mem_filter.1 h).1

theorem key_ne_of_mem_mapDelete {α : Type} {m : List (String × α)} {k : String}
    {e : String × α} (h : e ∈ mapDelete m k) : e.1 ≠ k := by
  have h2 := (List.mem_filter.1 h).2
  simp at h2
  exact h2

theorem mapHas_of_mem {α : Type} {m : List (String × α)} {e : String × α}
    (h : e ∈ m) : mapHas m e.1 = true := by
  induction m with
  | nil => cases h
  | cons e1 m ih =>
    obtain ⟨k1, v⟩ := e1
    rcases List.mem_cons.1 h with h1 | h1
    · subst h1
      simp [mapHas, mapGet_cons]
    · by_cases h2 : k1 = e.1
      · simp [mapHas, mapGet_cons, h2]
      · simpa [mapHas, mapGet_cons, h2] using ih h1

/-! ## Matchmaking room (MatchmakingRoom, primary variant)

State document MatchmakingState from Colyseus/schema/MatchmakingState.js
and the room logic of the first MatchmakingRoom class: onJoin, onLeave,
enqueue, dequeue, recount and matchmakeTick.  The asynchronous
matchMaker.createRoom call is modelled by a boolean telling whether the
orchestrator request succeeded; matchmakeTickRes additionally reports the
roster passed to createRoom (none when no request was issued this tick).
-/

/-- MmPlayer schema record. -/
structure MmPlayer where
  sessionId : String
  name : String
  level : Int
  status : String
  lastPingMs : Int
  deriving DecidableEq

/-- QueueEntry schema record. -/
structure QueueEntry where
  sessionId : String
  joinedAt : Int
  mmr : Int
  deriving DecidableEq

/-- MatchmakingState document (the parties map is never touched by the
room logic and is omitted). -/
structure MMState where
  players : List (String × MmPlayer)
  queue : List (String × QueueEntry)
  onlineCount : Nat
  queueCount : Nat
  deriving DecidableEq

def MMState.empty : MMState :=
  { players := [], queue := [], onlineCount := 0, queueCount := 0 }

/-- MatchmakingRoom.recount. -/
def recount (s : MMState) : MMState :=
  { s with onlineCount := s.players.length, queueCount := s.queue.length }

/-- MatchmakingRoom.onJoin: create an MmPlayer with status idle. -/
def mmOnJoin (s : MMState) (sid name : String) (level : Int) : MMState :=
  let p : MmPlayer :=
    { sessionId := sid, name := name, level := level, status := "idle",
      lastPingMs := 0 }
  recount { s with players := mapSet s.players sid p }

/-- The status mutation performed by enqueue. -/
def setSearching (p : MmPlayer) : MmPlayer :=
  { p with status := "searching" }

/-- MatchmakingRoom.enqueue (handler of the queue:join message): no-op when
the connection has no MmPlayer; otherwise insert a QueueEntry when absent
and set the player status to searching. -/
def enqueue (s : MMState) (sid : String) (now : Int) : MMState :=
  match mapGet s.players sid with
  | none => s
  | some _ =>
    let s1 :=
      if mapHas s.queue sid then s
      else { s with queue := mapSet s.queue sid ⟨sid, now, 0⟩ }
    recount { s1 with players := mapUpdate s1.players sid setSearching }

/-- The status mutation performed by dequeue. -/
def setIdle (p : MmPlayer) : MmPlayer :=
  { p with status := "idle" }

/-- MatchmakingRoom.dequeue (handler of the queue:leave message). -/
def dequeue (s : MMState) (sid : String) : MMState :=
  let s1 := { s with players := mapUpdate s.players sid setIdle }
  recount { s1 with queue := mapDelete s1.queue sid }

/-- MatchmakingRoom.onLeave: dequeue, then delete the MmPlayer. -/
def mmOnLeave (s : MMState) (sid : String) : MMState :=
  let s1 := dequeue s sid
  recount { s1 with players := mapDelete s1.players sid }

/-- The queue-cleanup loop of matchmakeTick: delete every selected session
id whose MmPlayer no longer exists. -/
def cleanQueue (players : List (String × MmPlayer)) (sids : List String)
    (q : List (String × QueueEntry)) : List (String × QueueEntry) :=
  sids.foldl (fun q sid => if mapHas players sid then q else mapDelete q sid) q

/-- The status mutation performed by the success loop of matchmakeTick. -/
def setInGame (p : MmPlayer) : MmPlayer :=
  { p with status := "in_game" }

/-- The success loop of matchmakeTick: each matched player gets status
in_game and its queue entry is deleted. -/
def consume (st : MMState) (ps : List MmPlayer) : MMState :=
  ps.foldl (fun st p =>
    { st with
      players := mapUpdate st.players p.sessionId setInGame,
      queue := mapDelete st.queue p.sessionId }) st

theorem consume_step_eq (st : MMState) (p : MmPlayer) (ps : List MmPlayer) :
    consume st (p :: ps) = consume
      { st with players := mapUpdate st.players p.sessionId setInGame,
                queue := mapDelete st.queue p.sessionId } ps := rfl

/-- The first four queue keys, in queue insertion order (the selection loop
of matchmakeTick). -/
def tickSelected (s : MMState) : List String :=
  (s.queue.take 4).map (fun e => e.1)

/-- The selected session ids mapped to their MmPlayer records, dropping
those whose record no longer exists (the map-and-filter of matchmakeTick). -/
def tickValid (s : MMState) : List MmPlayer :=
  (tickSelected s).filterMap (fun sid => mapGet s.players sid)

/-- MatchmakingRoom.matchmakeTick.  The second component is the roster
handed to matchMaker.createRoom, none when no creation request was issued
this tick; success tells whether that request succeeded. -/
def matchmakeTickRes (s : MMState) (success : Bool) :
    MMState × Option (List MmPlayer) :=
  if s.queue.length < 4 then (s, none)
  else
    if (tickValid s).length < 4 then
      (recount { s with queue := cleanQueue s.players (tickSelected s) s.queue },
       none)
    else
      if success then (recount (consume s (tickValid s)), some (tickValid s))
      else (s, some (tickValid s))

def matchmakeTick (s : MMState) (success : Bool) : MMState :=
  (matchmakeTickRes s success).1

/-- The matchmaking operations named by the specification. -/
inductive MMOp where
  | join (sid name : String) (level : Int)
  | queueJoin (sid : String) (now : Int)
  | queueLeave (sid : String)
  | leave (sid : String)
  | tick (success : Bool)
  deriving DecidableEq

def MMState.step (s : MMState) : MMOp → MMState
  | .join sid name level => mmOnJoin s sid name level
  | .queueJoin sid now => enqueue s sid now
  | .queueLeave sid => dequeue s sid
  | .leave sid => mmOnLeave s sid
  | .tick success => matchmakeTick s success

def MMState.runFrom (s : MMState) (ops : List MMOp) : MMState :=
  ops.foldl MMState.step s

def MMState.run (ops : List MMOp) : MMState :=
  MMState.runFrom MMState.empty ops

/-- Every queue entry key is backed by an MmPlayer record. -/
def noOrphans (s : MMState) : Bool :=
  s.queue.all (fun e => mapHas s.players e.1)

theorem band_true_elim {a b : Bool} (h : (a && b) = true) :
    a = true ∧ b = true := by
  simpa using h

theorem band_false_elim {a b : Bool} (h : (a && b) = false) :
    a = false ∨ b = false := by
  cases a <;> cases b <;> simp_all

theorem bor_true_elim {a b : Bool} (h : (a || b) = true) :
    a = true ∨ b = true := by
  simpa using h

/-- Unfolding of enqueue when the connection has no MmPlayer. -/
theorem enqueue_none {s : MMState} {sid : String} (now : Int)
    (h : mapGet s.players sid = none) : enqueue s sid now = s := by
  unfold enqueue
  rw [h]

/-- Unfolding of enqueue for an already queued MmPlayer. -/
theorem enqueue_inQueue {s : MMState} {sid : String} (now : Int) {p : MmPlayer}
    (h : mapGet s.players sid = some p) (hq : mapHas s.queue sid = true) :
    enqueue s sid now =
      recount { s with players := mapUpdate s.players sid setSearching } := by
  unfold enqueue
  rw [h]
  simp [hq]

/-- Unfolding of enqueue for a not yet queued MmPlayer. -/
theorem enqueue_newEntry {s : MMState} {sid : String} (now : Int) {p : MmPlayer}
    (h : mapGet s.players sid = some p) (hq : mapHas s.queue sid = false) :
    enqueue s sid now =
      recount { s with queue := mapSet s.queue sid ⟨sid, now, 0⟩,
                       players := mapUpdate s.players sid setSearching } := by
  unfold enqueue
  rw [h]
  simp [hq]

/-- Key-level reformulation of noOrphans. -/
theorem noOrphans_iff (s : MMState) :
    noOrphans s = true ↔
      ∀ k, mapHas s.queue k = true → mapHas s.players k = true := by
  constructor
  · intro h k hk
    obtain ⟨e, he⟩ := Option.isSome_iff_exists.1 hk
    obtain ⟨w, hw1, hw2⟩ := Option.map_eq_some'.1 he
    have hmem := List.mem_of_find?_eq_some hw1
    have hpred := List.find?_some hw1
    have hkey : w.1 = k := by simpa using hpred
    have := (List.all_eq_true.1 h) w hmem
    simpa [hkey] using this
  · intro h
    refine List.all_eq_true.2 (fun e he => ?_)
    exact h e.1 (mapHas_of_mem he)

theorem cleanQueue_has {pl : List (String × MmPlayer)} {sids : List String}
    {q : List (String × QueueEntry)} {k : String}
    (h : mapHas (cleanQueue pl sids q) k = true) : mapHas q k = true := by
  induction sids generalizing q with
  | nil => exact h
  | cons sid sids ih =>
    have h2 := ih (q := if mapHas pl sid then q else mapDelete q sid) h
    by_cases hp : mapHas pl sid
    · simpa [hp] using h2
    · rw [if_neg hp, mapHas_mapDelete] at h2
      exact (band_true_elim h2).2

theorem consume_players_has (ps : List MmPlayer) (st : MMState) (k : String) :
    mapHas (consume st ps).players k = mapHas st.players k := by
  induction ps generalizing st with
  | nil => rfl
  | cons p ps ih =>
    show mapHas (consume _ ps).players k = _
    rw [ih]
    simp [mapHas_mapUpdate]

theorem consume_queue_has {ps : List MmPlayer} {st : MMState} {k : String}
    (h : mapHas (consume st ps).queue k = true) : mapHas st.queue k = true := by
  induction ps generalizing st with
  | nil => exact h
  | cons p ps ih =>
    rw [consume_step_eq] at h
    have h2 := ih h
    have h3 : mapHas (mapDelete st.queue p.sessionId) k = true := h2
    rw [mapHas_mapDelete] at h3
    exact (band_true_elim h3).2

theorem step_preserves_noOrph (s : MMState) (op : MMOp)
    (h : ∀ k, mapHas s.queue k = true → mapHas s.players k = true) :
    ∀ k, mapHas (s.step op).queue k = true →
      mapHas (s.step op).players k = true := by
  cases op with
  | join sid name level =>
    intro k hk
    simp only [MMState.step, mmOnJoin, recount] at hk ⊢
    rw [mapHas_mapSet]
    have := h k hk
    simp [this]
  | queueJoin sid now =>
    intro k hk
    cases hp : mapGet s.players sid with
    | none =>
      rw [show s.step (MMOp.queueJoin sid now) = enqueue s sid now from rfl,
        enqueue_none now hp] at hk ⊢
      exact h k hk
    | some p =>
      by_cases hq : mapHas s.queue sid
      · rw [show s.step (MMOp.queueJoin sid now) = enqueue s sid now from rfl,
          enqueue_inQueue now hp hq] at hk ⊢
        simp only [recount] at hk ⊢
        rw [mapHas_mapUpdate]
        exact h k hk
      · rw [show s.step (MMOp.queueJoin sid now) = enqueue s sid now from rfl,
          enqueue_newEntry now hp (by simpa using hq)] at hk ⊢
        simp only [recount] at hk ⊢
        rw [mapHas_mapUpdate]
        rw [mapHas_mapSet] at hk
        rcases bor_true_elim hk with h1 | h1
        · have hsk : sid = k := of_decide_eq_true h1
          subst hsk
          simp [mapHas, hp]
        · exact h k h1
  | queueLeave sid =>
    intro k hk
    simp only [MMState.step, dequeue, recount] at hk ⊢
    rw [mapHas_mapDelete] at hk
    rw [mapHas_mapUpdate]
    exact h k (band_true_elim hk).2
  | leave sid =>
    intro k hk
    simp only [MMState.step, mmOnLeave, dequeue, recount] at hk ⊢
    rw [mapHas_mapDelete] at hk
    obtain ⟨hne, hold⟩ := band_true_elim hk
    rw [mapHas_mapDelete, mapHas_mapUpdate, hne]
    simpa using h k hold
  | tick success =>
    intro k hk
    simp only [MMState.step, matchmakeTick, matchmakeTickRes] at hk ⊢
    by_cases h4 : s.queue.length < 4
    · simp only [if_pos h4] at hk ⊢
      exact h k hk
    · simp only [if_neg h4] at hk ⊢
      by_cases hv : (tickValid s).length < 4
      · simp only [if_pos hv, recount] at hk ⊢
        exact h k (cleanQueue_has hk)
      · simp only [if_neg hv] at hk ⊢
        cases success with
        | false =>
          simp only [Bool.false_eq_true, if_neg] at hk ⊢
          exact h k hk
        | true =>
          simp only [if_pos, recount] at hk ⊢
          rw [consume_players_has]
          exact h k (consume_queue_has hk)

/-- C1: for every sequence of matchmaking operations (join, queue:join,
queue:leave, leave, matchmakeTick) starting from the empty matchmaking
state, every QueueEntry key in the queue map also has an MmPlayer record
under the same sessionId in the players map.  Quantifying over all
operation lists covers every intermediate state, since each prefix of a
sequence is itself a sequence. -/
theorem C1_no_orphan_queue_entries (ops : List MMOp) :
    noOrphans (MMState.run ops) = true := by
  suffices h : ∀ s, noOrphans s = true → noOrphans (MMState.runFrom s ops) = true by
    exact h MMState.empty rfl
  induction ops with
  | nil => intro s hs; exact hs
  | cons op ops ih =>
    intro s hs
    exact ih (s.step op)
      ((noOrphans_iff _).2 (step_preserves_noOrph s op ((noOrphans_iff s).1 hs)))

/-- Every MmPlayer record's sessionId field agrees with its map key; the
room only ever stores records under their own session id. -/
def goodKeys (m : List (String × MmPlayer)) : Bool :=
  m.all (fun e => e.2.sessionId == e.1)

theorem goodKeys_get {m : List (String × MmPlayer)} {k : String} {p : MmPlayer}
    (hg : goodKeys m = true) (h : mapGet m k = some p) : p.sessionId = k := by
  obtain ⟨e, he1, he2⟩ := Option.map_eq_some'.1 h
  have hmem := List.mem_of_find?_eq_some he1
  have hpred := List.find?_some he1
  have hkey : e.1 = k := by simpa using hpred
  have hall := List.all_eq_true.1 hg e hmem
  have h2 : e.2.sessionId = e.1 := by simpa using hall
  rw [← he2, h2, hkey]

theorem mem_mapSet_elim {α : Type} {m : List (String × α)} {k : String}
    {v : α} {e : String × α} (h : e ∈ mapSet m k v) :
    e = (k, v) ∨ e ∈ m := by
  unfold mapSet at h
  by_cases hh : mapHas m k
  · rw [if_pos hh] at h
    obtain ⟨e0, he0, heq⟩ := List.mem_map.1 h
    by_cases hk : e0.1 = k
    · left
      rw [← heq]
      simp [hk]
    · right
      rw [← heq]
      simpa [hk] using he0
  · rw [if_neg hh] at h
    rcases List.mem_append.1 h with h1 | h1
    · right; exact h1
    · left; simpa using h1

theorem mem_mapUpdate_elim {α : Type} {m : List (String × α)} {k : String}
    {f : α → α} {e : String × α} (h : e ∈ mapUpdate m k f) :
    ∃ e0 ∈ m, e = e0 ∨ e = (e0.1, f e0.2) := by
  obtain ⟨e0, he0, heq⟩ := List.mem_map.1 h
  refine ⟨e0, he0, ?_⟩
  by_cases hk : e0.1 = k
  · right; rw [← heq]; simp [hk]
  · left; rw [← heq]; simp [hk]

theorem consume_mem_elim {ps : List MmPlayer} {st : MMState} {e : String × MmPlayer}
    (h : e ∈ (consume st ps).players) :
    ∃ e0 ∈ st.players, e = e0 ∨ e = (e0.1, setInGame e0.2) := by
  induction ps generalizing st with
  | nil => exact ⟨e, h, Or.inl rfl⟩
  | cons p ps ih =>
    rw [consume_step_eq] at h
    obtain ⟨e1, he1, hor1⟩ := ih h
    obtain ⟨e0, he0, hor0⟩ := mem_mapUpdate_elim he1
    rcases hor1 with h1 | h1 <;> rcases hor0 with h0 | h0
    · exact ⟨e0, he0, Or.inl (h1.trans h0)⟩
    · exact ⟨e0, he0, Or.inr (h1.trans h0)⟩
    · exact ⟨e0, he0, Or.inr (by rw [h1, h0])⟩
    · refine ⟨e0, he0, Or.inr ?_⟩
      rw [h1, h0]
      simp [setInGame]

theorem consume_keeps_in_game {ps : List MmPlayer} {st : MMState} {sid : String}
    (h : (mapGet st.players sid).map MmPlayer.status = some "in_game") :
    (mapGet (consume st ps).players sid).map MmPlayer.status = some "in_game" := by
  induction ps generalizing st with
  | nil => exact h
  | cons p ps ih =>
    rw [consume_step_eq]
    refine ih ?_
    show (mapGet (mapUpdate st.players p.sessionId setInGame) sid).map _ = _
    rw [mapGet_mapUpdate]
    by_cases hk : p.sessionId = sid
    · rw [if_pos hk]
      obtain ⟨q, hq⟩ := Option.map_eq_some'.1 h
      simp [hq.1, setInGame]
    · rw [if_neg hk]
      exact h

theorem consume_sets_in_game {ps : List MmPlayer} {st : MMState} {p : MmPlayer}
    (hmem : p ∈ ps) (hhas : mapHas st.players p.sessionId = true) :
    (mapGet (consume st ps).players p.sessionId).map MmPlayer.status
      = some "in_game" := by
  induction ps generalizing st with
  | nil => cases hmem
  | cons q ps ih =>
    rw [consume_step_eq]
    rcases List.mem_cons.1 hmem with h1 | h1
    · subst h1
      refine consume_keeps_in_game ?_
      show (mapGet (mapUpdate st.players p.sessionId setInGame) p.sessionId).map _ = _
      rw [mapGet_mapUpdate, if_pos rfl]
      obtain ⟨w, hw⟩ := Option.isSome_iff_exists.1 hhas
      simp [hw, setInGame]
    · refine ih h1 ?_
      show mapHas (mapUpdate st.players q.sessionId setInGame) p.sessionId = true
      rw [mapHas_mapUpdate]
      exact hhas

theorem consume_queue_has_false {ps : List MmPlayer} {st : MMState} {k : String}
    (h : mapHas (consume st ps).queue k = false) :
    mapHas st.queue k = false ∨ k ∈ ps.map MmPlayer.sessionId := by
  induction ps generalizing st with
  | nil => exact Or.inl h
  | cons p ps ih =>
    rw [consume_step_eq] at h
    rcases ih h with h1 | h1
    · have h1' : mapHas (mapDelete st.queue p.sessionId) k = false := h1
      rw [mapHas_mapDelete] at h1'
      rcases band_false_elim h1' with h2 | h2
      · right
        have hsk : p.sessionId = k := by simpa using h2
        exact List.mem_cons.2 (Or.inl hsk.symm)
      · exact Or.inl h2
    · exact Or.inr (List.mem_cons.2 (Or.inr h1))

theorem cleanQueue_has_false {pl : List (String × MmPlayer)} {sids : List String}
    {q : List (String × QueueEntry)} {k : String}
    (h : mapHas (cleanQueue pl sids q) k = false) :
    mapHas q k = false ∨ mapHas pl k = false := by
  induction sids generalizing q with
  | nil => exact Or.inl h
  | cons sid sids ih =>
    have h2 := ih (q := if mapHas pl sid then q else mapDelete q sid) h
    by_cases hp : mapHas pl sid
    · rw [if_pos hp] at h2
      exact h2
    · rw [if_neg hp] at h2
      rcases h2 with h1 | h1
      · rw [mapHas_mapDelete] at h1
        rcases band_false_elim h1 with h2 | h2
        · have hsk : sid = k := by simpa using h2
          right
          rw [← hsk]
          simpa using hp
        · exact Or.inl h2
      · exact Or.inr h1

@[simp] theorem recount_players (s : MMState) : (recount s).players = s.players := rfl

@[simp] theorem recount_queue (s : MMState) : (recount s).queue = s.queue := rfl

theorem tickValid_mem {s : MMState} {p : MmPlayer}
    (hg : goodKeys s.players = true) (h : p ∈ tickValid s) :
    mapGet s.players p.sessionId = some p := by
  obtain ⟨sid, hsid, hget⟩ := List.mem_filterMap.1 h
  rwa [goodKeys_get hg hget]

theorem tickValid_length_le (s : MMState) (h4 : ¬ s.queue.length < 4) :
    (tickValid s).length ≤ 4 := by
  have h1 : (tickValid s).length ≤ (tickSelected s).length :=
    List.length_filterMap_le (fun sid => mapGet s.players sid) (tickSelected s)
  have h2 : (tickSelected s).length = 4 := by
    simp only [tickSelected, List.length_map, List.length_take]
    omega
  omega

/-- Every reachable MmPlayer record carries its own key in its sessionId
field. -/
theorem run_goodKeys (ops : List MMOp) :
    goodKeys (MMState.run ops).players = true := by
  suffices h : ∀ s, goodKeys s.players = true →
      goodKeys (MMState.runFrom s ops).players = true by
    exact h MMState.empty rfl
  induction ops with
  | nil => intro s hs; exact hs
  | cons op ops ih =>
    intro s hs
    refine ih (s.step op) (List.all_eq_true.2 (fun e he => ?_))
    have hgood : ∀ e0 ∈ s.players, e0.2.sessionId = e0.1 := by
      intro e0 he0
      simpa using List.all_eq_true.1 hs e0 he0
    suffices hss : e.2.sessionId = e.1 by simpa using hss
    cases op with
    | join sid name level =>
      simp only [MMState.step, mmOnJoin, recount_players] at he
      rcases mem_mapSet_elim he with h1 | h1
      · rw [h1]
      · exact hgood e h1
    | queueJoin sid now =>
      cases hp : mapGet s.players sid with
      | none =>
        rw [show s.step (MMOp.queueJoin sid now) = enqueue s sid now from rfl,
          enqueue_none now hp] at he
        exact hgood e he
      | some p =>
        by_cases hq : mapHas s.queue sid
        · rw [show s.step (MMOp.queueJoin sid now) = enqueue s sid now from rfl,
            enqueue_inQueue now hp hq, recount_players] at he
          obtain ⟨e0, he0, hor⟩ := mem_mapUpdate_elim he
          rcases hor with h1 | h1
          · rw [h1]; exact hgood e0 he0
          · rw [h1]; exact hgood e0 he0
        · rw [show s.step (MMOp.queueJoin sid now) = enqueue s sid now from rfl,
            enqueue_newEntry now hp (by simpa using hq), recount_players] at he
          obtain ⟨e0, he0, hor⟩ := mem_mapUpdate_elim he
          rcases hor with h1 | h1
          · rw [h1]; exact hgood e0 he0
          · rw [h1]; exact hgood e0 he0
    | queueLeave sid =>
      simp only [MMState.step, dequeue, recount_players] at he
      obtain ⟨e0, he0, hor⟩ := mem_mapUpdate_elim he
      rcases hor with h1 | h1
      · rw [h1]; exact hgood e0 he0
      · rw [h1]; exact hgood e0 he0
    | leave sid =>
      simp only [MMState.step, mmOnLeave, dequeue, recount_players] at he
      have he2 := mem_of_mem_mapDelete he
      obtain ⟨e0, he0, hor⟩ := mem_mapUpdate_elim he2
      rcases hor with h1 | h1
      · rw [h1]; exact hgood e0 he0
      · rw [h1]; exact hgood e0 he0
    | tick success =>
      simp only [MMState.step, matchmakeTick, matchmakeTickRes] at he
      by_cases h4 : s.queue.length < 4
      · simp only [if_pos h4] at he
        exact hgood e he
      · simp only [if_neg h4] at he
        by_cases hv : (tickValid s).length < 4
        · simp only [if_pos hv, recount_players] at he
          exact hgood e he
        · simp only [if_neg hv] at he
          cases success with
          | false =>
            simp only [Bool.false_eq_true, if_neg] at he
            exact hgood e he
          | true =>
            simp only [if_pos, recount_players] at he
            obtain ⟨e0, he0, hor⟩ := consume_mem_elim he
            rcases hor with h1 | h1
            · rw [h1]; exact hgood e0 he0
            · rw [h1]; exact hgood e0 he0

/-- Every reachable MmPlayer status is idle, searching or in_game. -/
def statusOK (s : MMState) : Bool :=
  s.players.all (fun e =>
    e.2.status == "idle" || e.2.status == "searching" || e.2.status == "in_game")

theorem run_statusOK (ops : List MMOp) : statusOK (MMState.run ops) = true := by
  suffices h : ∀ s, statusOK s = true → statusOK (MMState.runFrom s ops) = true by
    exact h MMState.empty rfl
  induction ops with
  | nil => intro s hs; exact hs
  | cons op ops ih =>
    intro s hs
    refine ih (s.step op) (List.all_eq_true.2 (fun e he => ?_))
    have hgood : ∀ e0 ∈ s.players, e0.2.status = "idle" ∨
        e0.2.status = "searching" ∨ e0.2.status = "in_game" := by
      intro e0 he0
      simpa [or_assoc] using List.all_eq_true.1 hs e0 he0
    suffices hss : e.2.status = "idle" ∨ e.2.status = "searching" ∨
        e.2.status = "in_game" by simpa [or_assoc] using hss
    cases op with
    | join sid name level =>
      simp only [MMState.step, mmOnJoin, recount_players] at he
      rcases mem_mapSet_elim he with h1 | h1
      · rw [h1]; left; rfl
      · exact hgood e h1
    | queueJoin sid now =>
      cases hp : mapGet s.players sid with
      | none =>
        rw [show s.step (MMOp.queueJoin sid now) = enqueue s sid now from rfl,
          enqueue_none now hp] at he
        exact hgood e he
      | some p =>
        by_cases hq : mapHas s.queue sid
        · rw [show s.step (MMOp.queueJoin sid now) = enqueue s sid now from rfl,
            enqueue_inQueue now hp hq, recount_players] at he
          obtain ⟨e0, he0, hor⟩ := mem_mapUpdate_elim he
          rcases hor with h1 | h1
          · rw [h1]; exact hgood e0 he0
          · rw [h1]; right; left; rfl
        · rw [show s.step (MMOp.queueJoin sid now) = enqueue s sid now from rfl,
            enqueue_newEntry now hp (by simpa using hq), recount_players] at he
          obtain ⟨e0, he0, hor⟩ := mem_mapUpdate_elim he
          rcases hor with h1 | h1
          · rw [h1]; exact hgood e0 he0
          · rw [h1]; right; left; rfl
    | queueLeave sid =>
      simp only [MMState.step, dequeue, recount_players] at he
      obtain ⟨e0, he0, hor⟩ := mem_mapUpdate_elim he
      rcases hor with h1 | h1
      · rw [h1]; exact hgood e0 he0
      · rw [h1]; left; rfl
    | leave sid =>
      simp only [MMState.step, mmOnLeave, dequeue, recount_players] at he
      have he2 := mem_of_mem_mapDelete he
      obtain ⟨e0, he0, hor⟩ := mem_mapUpdate_elim he2
      rcases hor with h1 | h1
      · rw [h1]; exact hgood e0 he0
      · rw [h1]; left; rfl
    | tick success =>
      simp only [MMState.step, matchmakeTick, matchmakeTickRes] at he
      by_cases h4 : s.queue.length < 4
      · simp only [if_pos h4] at he
        exact hgood e he
      · simp only [if_neg h4] at he
        by_cases hv : (tickValid s).length < 4
        · simp only [if_pos hv, recount_players] at he
          exact hgood e he
        · simp only [if_neg hv] at he
          cases success with
          | false =>
            simp only [Bool.false_eq_true, if_neg] at he
            exact hgood e he
          | true =>
            simp only [if_pos, recount_players] at he
            obtain ⟨e0, he0, hor⟩ := consume_mem_elim he
            rcases hor with h1 | h1
            · rw [h1]; exact hgood e0 he0
            · rw [h1]; right; right; rfl

/-- C2: matchmakeTick issues a room-creation request only for a selection
of exactly 4 entries each of which is backed by a live MmPlayer record
(never short-handed); and a queued entry is removed by the tick only when
it belongs to a successfully formed match or its backing MmPlayer record
is gone (its owning connection has left).  In particular a tick that finds
dead entries in its selection removes only those and forms no match, so
selection is retried on a later tick. -/
theorem C2_tick_four_valid_and_safe_removal (s : MMState) (ok : Bool)
    (hg : goodKeys s.players = true) :
    (∀ ps, (matchmakeTickRes s ok).2 = some ps →
      ps.length = 4 ∧ ∀ p ∈ ps, mapGet s.players p.sessionId = some p) ∧
    (∀ e ∈ s.queue, mapHas (matchmakeTickRes s ok).1.queue e.1 = false →
      (ok = true ∧ ∃ ps, (matchmakeTickRes s ok).2 = some ps ∧
        e.1 ∈ ps.map MmPlayer.sessionId) ∨
      mapHas s.players e.1 = false) := by
  by_cases h4 : s.queue.length < 4
  · have hres : matchmakeTickRes s ok = (s, none) := by
      simp only [matchmakeTickRes, if_pos h4]
    rw [hres]
    refine ⟨fun ps hps => ?_, fun e he hrm => ?_⟩
    · cases hps
    · exact absurd hrm (by simp [mapHas_of_mem he])
  · by_cases hv : (tickValid s).length < 4
    · have hres : matchmakeTickRes s ok =
          (recount { s with
            queue := cleanQueue s.players (tickSelected s) s.queue }, none) := by
        simp only [matchmakeTickRes, if_neg h4, if_pos hv]
      rw [hres]
      refine ⟨fun ps hps => ?_, fun e he hrm => ?_⟩
      · cases hps
      · have hrm' : mapHas (cleanQueue s.players (tickSelected s) s.queue) e.1
            = false := hrm
        rcases cleanQueue_has_false hrm' with h1 | h1
        · exact absurd h1 (by simp [mapHas_of_mem he])
        · exact Or.inr h1
    · have hlen : (tickValid s).length = 4 := by
        have := tickValid_length_le s h4
        omega
      have hcommon : ∀ p ∈ tickValid s, mapGet s.players p.sessionId = some p :=
        fun p hp => tickValid_mem hg hp
      cases ok with
      | false =>
        have hres : matchmakeTickRes s false = (s, some (tickValid s)) := by
          simp [matchmakeTickRes, h4, hv]
        rw [hres]
        refine ⟨fun ps hps => ?_, fun e he hrm => ?_⟩
        · obtain rfl : tickValid s = ps := by
            cases hps
            rfl
          exact ⟨hlen, hcommon⟩
        · exact absurd hrm (by simp [mapHas_of_mem he])
      | true =>
        have hres : matchmakeTickRes s true =
            (recount (consume s (tickValid s)), some (tickValid s)) := by
          simp [matchmakeTickRes, h4, hv]
        rw [hres]
        refine ⟨fun ps hps => ?_, fun e he hrm => ?_⟩
        · obtain rfl : tickValid s = ps := by
            cases hps
            rfl
          exact ⟨hlen, hcommon⟩
        · have hrm' : mapHas (consume s (tickValid s)).queue e.1 = false := hrm
          rcases consume_queue_has_false hrm' with h1 | h1
          · exact absurd h1 (by simp [mapHas_of_mem he])
          · exact Or.inl ⟨rfl, tickValid s, rfl, h1⟩

/-- C4: when the room-creation request of matchmakeTick is issued but
fails, the tick leaves the whole matchmaking state unchanged (in
particular all selected queue entries stay queued with their joinedAt
fields intact and no MmPlayer status changes). -/
theorem C4_orchestrator_failure_leaves_state_unchanged (s : MMState)
    (ps : List MmPlayer) (hreq : (matchmakeTickRes s false).2 = some ps) :
    (matchmakeTickRes s false).1 = s := by
  by_cases h4 : s.queue.length < 4
  · simp [matchmakeTickRes, h4] at hreq
  · by_cases hv : (tickValid s).length < 4
    · simp [matchmakeTickRes, h4, hv] at hreq
    · simp [matchmakeTickRes, h4, hv]

theorem mapDelete_nil {α : Type} (k : String) :
    mapDelete ([] : List (String × α)) k = [] := rfl

theorem consume_queue_eq (ps : List MmPlayer) (st : MMState) :
    (consume st ps).queue
      = ps.foldl (fun q p => mapDelete q p.sessionId) st.queue := by
  induction ps generalizing st with
  | nil => rfl
  | cons p ps ih =>
    rw [consume_step_eq, ih]
    rfl

/-- C3: matchmakeTick selection is deterministic and follows arrival
order: a queue of 5 entries enqueued at times t1 < t2 < t3 < t4 < t5,
appearing in the queue in that insertion order with all backing MmPlayer
records live, yields a tick that requests exactly the first four entries
as the match roster and leaves only the fifth entry queued. -/
theorem C3_selects_first_four_by_arrival (s : MMState)
    (k1 k2 k3 k4 k5 : String) (e1 e2 e3 e4 e5 : QueueEntry)
    (p1 p2 p3 p4 : MmPlayer) (t1 t2 t3 t4 t5 : Int)
    (hq : s.queue = [(k1, e1), (k2, e2), (k3, e3), (k4, e4), (k5, e5)])
    (ht1 : e1.joinedAt = t1) (ht2 : e2.joinedAt = t2) (ht3 : e3.joinedAt = t3)
    (ht4 : e4.joinedAt = t4) (ht5 : e5.joinedAt = t5)
    (hts : t1 < t2 ∧ t2 < t3 ∧ t3 < t4 ∧ t4 < t5)
    (hnd : List.Nodup [k1, k2, k3, k4, k5])
    (hg : goodKeys s.players = true)
    (hp1 : mapGet s.players k1 = some p1) (hp2 : mapGet s.players k2 = some p2)
    (hp3 : mapGet s.players k3 = some p3)
    (hp4 : mapGet s.players k4 = some p4) :
    (matchmakeTickRes s true).2 = some [p1, p2, p3, p4] ∧
    (matchmakeTickRes s true).1.queue = [(k5, e5)] := by
  have hsel : tickSelected s = [k1, k2, k3, k4] := by
    unfold tickSelected
    rw [hq]
    rfl
  have hval : tickValid s = [p1, p2, p3, p4] := by
    unfold tickValid
    rw [hsel]
    simp [List.filterMap_cons, hp1, hp2, hp3, hp4]
  have h4 : ¬ s.queue.length < 4 := by
    rw [hq]
    simp
  have hv : ¬ (tickValid s).length < 4 := by
    rw [hval]
    simp
  have hres : matchmakeTickRes s true =
      (recount (consume s (tickValid s)), some (tickValid s)) := by
    simp [matchmakeTickRes, h4, hv]
  simp only [List.nodup_cons, List.mem_cons, List.not_mem_nil, or_false,
    not_or, List.nodup_nil, and_true] at hnd
  obtain ⟨⟨a12, a13, a14, a15⟩, ⟨a23, a24, a25⟩, ⟨a34, a35⟩, a45, -⟩ := hnd
  have b21 : ¬ k2 = k1 := fun h => a12 h.symm
  have b31 : ¬ k3 = k1 := fun h => a13 h.symm
  have b41 : ¬ k4 = k1 := fun h => a14 h.symm
  have b51 : ¬ k5 = k1 := fun h => a15 h.symm
  have b32 : ¬ k3 = k2 := fun h => a23 h.symm
  have b42 : ¬ k4 = k2 := fun h => a24 h.symm
  have b52 : ¬ k5 = k2 := fun h => a25 h.symm
  have b43 : ¬ k4 = k3 := fun h => a34 h.symm
  have b53 : ¬ k5 = k3 := fun h => a35 h.symm
  have b54 : ¬ k5 = k4 := fun h => a45 h.symm
  have hk1 : p1.sessionId = k1 := goodKeys_get hg hp1
  have hk2 : p2.sessionId = k2 := goodKeys_get hg hp2
  have hk3 : p3.sessionId = k3 := goodKeys_get hg hp3
  have hk4 : p4.sessionId = k4 := goodKeys_get hg hp4
  constructor
  · rw [hres, hval]
  · rw [hres]
    show (consume s (tickValid s)).queue = _
    rw [consume_queue_eq, hval, hq]
    simp only [List.foldl_cons, List.foldl_nil, hk1, hk2, hk3, hk4]
    simp [mapDelete_cons, mapDelete_nil, b21, b31, b41, b51, b32, b42, b52,
      b43, b53, b54]

/-! ## Concrete matchmaking scenarios used as witnesses -/

def mmP1 : MmPlayer := ⟨"a", "A", 1, "searching", 0⟩

def mmP2 : MmPlayer := ⟨"b", "B", 1, "searching", 0⟩

def mmP3 : MmPlayer := ⟨"c", "C", 1, "searching", 0⟩

def mmP4 : MmPlayer := ⟨"d", "D", 1, "searching", 0⟩

def mmPs4 : List MmPlayer := [mmP1, mmP2, mmP3, mmP4]

def mmOps4 : List MMOp :=
  [MMOp.join "a" "A" 1, MMOp.join "b" "B" 1, MMOp.join "c" "C" 1,
   MMOp.join "d" "D" 1, MMOp.queueJoin "a" 1, MMOp.queueJoin "b" 2,
   MMOp.queueJoin "c" 3, MMOp.queueJoin "d" 4]

def mmOps5 : List MMOp :=
  mmOps4 ++ [MMOp.join "e" "E" 1, MMOp.queueJoin "e" 5]

/-- Witness for C2: a concrete 4-player queue, one successful tick. -/
theorem C2_witness_concrete_four_player_tick :
    (matchmakeTickRes (MMState.run mmOps4) true).2 = some mmPs4 ∧
    mmPs4.length = 4 := by
  refine ⟨by decide, ?_⟩
  exact ((C2_tick_four_valid_and_safe_removal (MMState.run mmOps4) true
    (by decide)).1 mmPs4 (by decide)).1

/-- Witness for C3: five players queued at times 1 < 2 < 3 < 4 < 5. -/
theorem C3_witness_concrete_five_player_tick :
    (matchmakeTickRes (MMState.run mmOps5) true).2
      = some [mmP1, mmP2, mmP3, mmP4] ∧
    (matchmakeTickRes (MMState.run mmOps5) true).1.queue
      = [("e", ⟨"e", 5, 0⟩)] :=
  C3_selects_first_four_by_arrival (MMState.run mmOps5)
    "a" "b" "c" "d" "e" ⟨"a", 1, 0⟩ ⟨"b", 2, 0⟩ ⟨"c", 3, 0⟩ ⟨"d", 4, 0⟩
    ⟨"e", 5, 0⟩ mmP1 mmP2 mmP3 mmP4 1 2 3 4 5 (by decide) rfl rfl rfl rfl rfl
    (by decide) (by decide) (by decide) (by decide) (by decide) (by decide)
    (by decide)

/-- Witness for C4: the same 4-player queue with a failing orchestrator. -/
theorem C4_witness_concrete_failed_tick :
    (matchmakeTickRes (MMState.run mmOps4) false).1 = MMState.run mmOps4 :=
  C4_orchestrator_failure_leaves_state_unchanged (MMState.run mmOps4) mmPs4
    (by decide)

/-- C8 counterexample: after four players join and enqueue and one
matchmakeTick succeeds, the matched players' MmPlayer status is the
reachable value "in_game", which is neither "matched" nor any member of
the claimed set {idle, searching, matched}. -/
theorem C8_counterexample_in_game_status :
    (mapGet (MMState.run (mmOps4 ++ [MMOp.tick true])).players "a").map
      MmPlayer.status = some "in_game" ∧
    ¬ (("in_game" : String) = "idle" ∨ ("in_game" : String) = "searching" ∨
       ("in_game" : String) = "matched") :=
  ⟨by decide, by decide⟩

/-- C8 amended: every reachable MmPlayer status lies in
{idle, searching, in_game}, and after a successful matchmakeTick each of
the four matched connections' MmPlayer status equals "in_game" (the
primary MatchmakingRoom writes "in_game", not "matched"). -/
theorem C8_amended_status_set_and_matched_in_game :
    (∀ ops, statusOK (MMState.run ops) = true) ∧
    (∀ ops ps, (matchmakeTickRes (MMState.run ops) true).2 = some ps →
      ∀ p ∈ ps, (mapGet (matchmakeTick (MMState.run ops) true).players
        p.sessionId).map MmPlayer.status = some "in_game") := by
  constructor
  · exact run_statusOK
  · intro ops ps hreq p hp
    have hg := run_goodKeys ops
    by_cases h4 : (MMState.run ops).queue.length < 4
    · simp [matchmakeTickRes, h4] at hreq
    · by_cases hv : (tickValid (MMState.run ops)).length < 4
      · simp [matchmakeTickRes, h4, hv] at hreq
      · have hres : matchmakeTickRes (MMState.run ops) true =
            (recount (consume (MMState.run ops) (tickValid (MMState.run ops))),
             some (tickValid (MMState.run ops))) := by
          simp [matchmakeTickRes, h4, hv]
        rw [hres] at hreq
        obtain rfl : tickValid (MMState.run ops) = ps := by
          cases hreq
          rfl
        have hhas : mapHas (MMState.run ops).players p.sessionId = true := by
          rw [mapHas, tickValid_mem hg hp]
          rfl
        show (mapGet (matchmakeTick (MMState.run ops) true).players
          p.sessionId).map _ = _
        rw [matchmakeTick, hres]
        exact consume_sets_in_game hp hhas

/-- Witness for the amended C8: the concrete 4-player scenario. -/
theorem C8_amended_witness_concrete :
    (mapGet (matchmakeTick (MMState.run mmOps4) true).players "a").map
      MmPlayer.status = some "in_game" :=
  C8_amended_status_set_and_matched_in_game.2 mmOps4 mmPs4 (by decide) mmP1
    (by decide)

/-! ## Game room (GameRoom)

State document GameState from Colyseus/schema/GameState.js and the
GameRoom logic: onCreate message handlers (player:move, skill:cast,
player:damage), onJoin, onLeave, startMatch, tick and endMatch.  Wall
clock reads (Date.now) become explicit Int parameters in milliseconds;
JS numbers in these handlers are embedded as Int. -/

/-- PlayerState schema record. -/
structure PlayerState where
  sessionId : String
  name : String
  team : Nat
  x : Int
  y : Int
  animSpeed : Int
  facingRight : Bool
  hp : Int
  maxHp : Int
  alive : Bool
  kills : Nat
  deaths : Nat
  deriving DecidableEq

/-- SkillState schema record. -/
structure SkillState where
  id : String
  ownerId : String
  skillType : String
  x : Int
  y : Int
  dirX : Int
  dirY : Int
  facingRight : Bool
  createdAt : Int
  deriving DecidableEq

/-- GameState document together with the room-level fields roster
(options.players) and the connected client list. -/
structure Game where
  status : String
  players : List (String × PlayerState)
  skills : List (String × SkillState)
  teamA : List String
  teamB : List String
  matchStartTime : Int
  durationSec : Int
  remainingSec : Int
  tickCount : Nat
  serverTime : Int
  clients : List String
  roster : List (String × String)
  deriving DecidableEq

/-- A freshly created GameRoom seeded with a roster of
(sessionId, name) pairs. -/
def Game.init (roster : List (String × String)) : Game :=
  { status := "waiting", players := [], skills := [], teamA := [], teamB := [],
    matchStartTime := 0, durationSec := 300, remainingSec := 300,
    tickCount := 0, serverTime := 0, clients := [], roster := roster }

/-- GameRoom.startMatch. -/
def startMatch (g : Game) (now : Int) : Game :=
  { g with status := "playing", matchStartTime := now,
           remainingSec := g.durationSec }

/-- GameRoom.onJoin: reject session ids outside a non-empty roster;
otherwise create the PlayerState, assign the team by arrival order and
start the match once all 4 clients are connected. -/
def gameOnJoin (g : Game) (sid : String) (now : Int) : Game :=
  if g.roster ≠ [] ∧ ¬ (g.roster.any (fun e => e.1 == sid)) = true then g
  else
    let name := ((g.roster.find? (fun e => e.1 == sid)).map
      (fun e => e.2)).getD "Player"
    let team : Nat := if g.teamA.length < 2 then 0 else 1
    let ps : PlayerState :=
      { sessionId := sid, name := name, team := team,
        x := if team = 0 then -5 else 5, y := 0, animSpeed := 0,
        facingRight := true, hp := 100, maxHp := 100, alive := true,
        kills := 0, deaths := 0 }
    let g1 := { g with
      players := mapSet g.players sid ps,
      teamA := if team = 0 then g.teamA ++ [sid] else g.teamA,
      teamB := if team = 0 then g.teamB else g.teamB ++ [sid],
      clients := g.clients ++ [sid] }
    if g1.clients.length = 4 then startMatch g1 now else g1

/-- The alive mutation performed by onLeave and by a lethal damage hit. -/
def setDead (p : PlayerState) : PlayerState :=
  { p with alive := false }

/-- GameRoom.onLeave: the PlayerState is retained but marked not alive. -/
def gameOnLeave (g : Game) (sid : String) : Game :=
  { g with players := mapUpdate g.players sid setDead,
           clients := g.clients.filter (fun c => !(c == sid)) }

/-- The position update of the player:move handler: each present and
well-typed field overwrites, the rest keep their value. -/
def moveUpd (x y animSpeed : Option Int) (fr : Option Bool)
    (p : PlayerState) : PlayerState :=
  { p with x := x.getD p.x, y := y.getD p.y,
           animSpeed := animSpeed.getD p.animSpeed,
           facingRight := fr.getD p.facingRight }

/-- GameRoom handler of player:move. -/
def playerMove (g : Game) (sid : String) (x y animSpeed : Option Int)
    (fr : Option Bool) : Game :=
  match mapGet g.players sid with
  | none => g
  | some p =>
    if p.alive = false then g
    else { g with players := mapUpdate g.players sid (moveUpd x y animSpeed fr) }

/-- GameRoom handler of skill:cast.  The id is caster sessionId plus the
current timestamp; the skill snapshot copies the caster's position and
facing.  The delayed 3 second removal is a separate timer and does not
touch players. -/
def skillCast (g : Game) (sid : String) (skillType : Option String)
    (dirX dirY : Option Int) (now : Int) : Game :=
  match mapGet g.players sid with
  | none => g
  | some p =>
    if p.alive = false then g
    else
      let skill : SkillState :=
        { id := sid ++ "_" ++ toString now, ownerId := sid,
          skillType := skillType.getD "Q", x := p.x, y := p.y,
          dirX := dirX.getD 1, dirY := dirY.getD 0,
          facingRight := p.facingRight, createdAt := now }
      { g with skills := mapSet g.skills skill.id skill }

/-- The target mutation of a lethal damage hit: hp flooring at 0, alive
cleared, deaths incremented. -/
def lethalUpd (hp' : Int) (p : PlayerState) : PlayerState :=
  { p with hp := hp', alive := false, deaths := p.deaths + 1 }

/-- The hp-only mutation of a non-lethal damage hit. -/
def hpUpd (hp' : Int) (p : PlayerState) : PlayerState :=
  { p with hp := hp' }

/-- The attacker mutation of a lethal damage hit. -/
def killUpd (p : PlayerState) : PlayerState :=
  { p with kills := p.kills + 1 }

/-- GameRoom handler of player:damage.  dmg is some d when the payload
carried a numeric damage field and none otherwise (default 10); the
handler no-ops when the target is missing or not alive, floors hp at 0
and, exactly when the stored hp becomes 0, marks the target dead,
increments its deaths and increments the sender's kills when the sender
has a PlayerState (looked up after the target mutation, as the JS code
mutates the shared object). -/
def playerDamage (g : Game) (sender targetId : String) (dmg : Option Int) :
    Game :=
  match mapGet g.players targetId with
  | none => g
  | some t =>
    if t.alive = false then g
    else
      let damage := dmg.getD 10
      let hp' := max 0 (t.hp - damage)
      if hp' = 0 then
        let g1 := { g with
          players := mapUpdate g.players targetId (lethalUpd hp') }
        { g1 with players := mapUpdate g1.players sender killUpd }
      else { g with players := mapUpdate g.players targetId (hpUpd hp') }

/-- GameRoom.endMatch (the winner computation feeds only the broadcast). -/
def teamKills (g : Game) (team : Nat) : Nat :=
  (g.players.filter (fun e => e.2.team == team)).foldl
    (fun sum e => sum + e.2.kills) 0

def winner (g : Game) : String :=
  if teamKills g 0 > teamKills g 1 then "A"
  else if teamKills g 1 > teamKills g 0 then "B"
  else "draw"

def endMatch (g : Game) : Game :=
  { g with status := "finished" }

/-- GameRoom.tick at wall clock time now (ms).  The Bool reports whether
this tick called endMatch. -/
def gameTickRes (g : Game) (now : Int) : Game × Bool :=
  let g1 := { g with tickCount := g.tickCount + 1, serverTime := now }
  if g1.status = "playing" then
    let elapsed := Int.fdiv (now - g1.matchStartTime) 1000
    let rem := max 0 (g1.durationSec - elapsed)
    let g2 := { g1 with remainingSec := rem }
    if rem = 0 then (endMatch g2, true) else (g2, false)
  else (g1, false)

def gameTick (g : Game) (now : Int) : Game :=
  (gameTickRes g now).1

/-- Run of successive ticks, counting how many of them ended the match. -/
def runTicks (g : Game) : List Int → Game × Nat
  | [] => (g, 0)
  | t :: ts =>
    let r := gameTickRes g t
    let rest := runTicks r.1 ts
    (rest.1, (if r.2 then 1 else 0) + rest.2)

/-- The game session operations. -/
inductive GOp where
  | join (sid : String) (now : Int)
  | leave (sid : String)
  | move (sid : String) (x y animSpeed : Option Int) (fr : Option Bool)
  | cast (sid : String) (skillType : Option String) (dirX dirY : Option Int)
      (now : Int)
  | damage (sender targetId : String) (dmg : Option Int)
  | tick (now : Int)
  deriving DecidableEq

def Game.step (g : Game) : GOp → Game
  | .join sid now => gameOnJoin g sid now
  | .leave sid => gameOnLeave g sid
  | .move sid x y animSpeed fr => playerMove g sid x y animSpeed fr
  | .cast sid skillType dirX dirY now => skillCast g sid skillType dirX dirY now
  | .damage sender targetId dmg => playerDamage g sender targetId dmg
  | .tick now => gameTick g now

theorem playerDamage_missing {g : Game} {sender targetId : String}
    (dmg : Option Int) (h : mapGet g.players targetId = none) :
    playerDamage g sender targetId dmg = g := by
  unfold playerDamage
  rw [h]

theorem playerDamage_dead {g : Game} {sender targetId : String}
    {t : PlayerState} (dmg : Option Int)
    (h : mapGet g.players targetId = some t) (ha : t.alive = false) :
    playerDamage g sender targetId dmg = g := by
  unfold playerDamage
  rw [h]
  simp [ha]

theorem playerDamage_lethal {g : Game} {sender targetId : String}
    {t : PlayerState} {dmg : Option Int}
    (h : mapGet g.players targetId = some t) (ha : t.alive = true)
    (hl : max 0 (t.hp - dmg.getD 10) = 0) :
    playerDamage g sender targetId dmg =
      { g with
        players :=
          mapUpdate (mapUpdate g.players targetId (lethalUpd 0)) sender killUpd } := by
  unfold playerDamage
  rw [h]
  simp [ha, hl]

theorem playerDamage_nonlethal {g : Game} {sender targetId : String}
    {t : PlayerState} {dmg : Option Int}
    (h : mapGet g.players targetId = some t) (ha : t.alive = true)
    (hl : ¬ max 0 (t.hp - dmg.getD 10) = 0) :
    playerDamage g sender targetId dmg =
      { g with
        players := mapUpdate g.players targetId (hpUpd (max 0 (t.hp - dmg.getD 10))) } := by
  unfold playerDamage
  rw [h]
  simp [ha, hl]

/-! ## Concrete game scenario used by counterexamples and witnesses -/

/-- Two connections joined into a roster-free game room. -/
def gmBase : Game :=
  Game.step (Game.step (Game.init []) (GOp.join "s" 0)) (GOp.join "t" 0)

/-- The PlayerState of connection t in gmBase. -/
def gmT0 : PlayerState :=
  ⟨"t", "Player", 0, -5, 0, 0, true, 100, 100, true, 0, 0⟩

/-- C5 counterexample: a player:damage event whose numeric damage field is
negative (typeof -50 is number, so it is not replaced by the default) heals
the target past maxHp: from hp = maxHp = 100 the stored hp becomes 150,
outside [0, maxHp]. -/
theorem C5_counterexample_negative_damage :
    (mapGet gmBase.players "t").map (fun p => (p.hp, p.maxHp, p.alive))
      = some (100, 100, true) ∧
    (mapGet (playerDamage gmBase "s" "t" (some (-50))).players "t").map
      PlayerState.hp = some 150 ∧
    ¬ ((150 : Int) ≤ 100) :=
  ⟨by decide, by decide, by decide⟩

/-- C5 amended: after any processed player:damage event the target's hp is
at least 0 (the code only floors at 0); it is additionally at most maxHp
whenever the effective damage amount (defaulting to 10 when the field is
missing or non-numeric) is nonnegative and the target started with
0 ≤ hp ≤ maxHp, which holds in every reachable state.  A missing damage
field behaves exactly like damage 10, and an event whose target is
missing or not alive leaves the whole state unchanged. -/
theorem C5_amended_damage_bounds (g : Game) (sender targetId : String)
    (dmg : Option Int) :
    (∀ t t', mapGet g.players targetId = some t → t.alive = true →
      mapGet (playerDamage g sender targetId dmg).players targetId = some t' →
      0 ≤ t'.hp ∧ t'.maxHp = t.maxHp ∧
      (0 ≤ dmg.getD 10 → 0 ≤ t.maxHp → t.hp ≤ t.maxHp →
        t'.hp ≤ t'.maxHp)) ∧
    (playerDamage g sender targetId none
      = playerDamage g sender targetId (some 10)) ∧
    (∀ t, mapGet g.players targetId = some t → t.alive = false →
      playerDamage g sender targetId dmg = g) ∧
    (mapGet g.players targetId = none →
      playerDamage g sender targetId dmg = g) := by
  refine ⟨?_, rfl, fun t ht ha => playerDamage_dead dmg ht ha,
    fun h => playerDamage_missing dmg h⟩
  intro t t' ht ha ht'
  by_cases hl : max 0 (t.hp - dmg.getD 10) = 0
  · rw [playerDamage_lethal ht ha hl] at ht'
    have hx : mapGet (mapUpdate (mapUpdate g.players targetId (lethalUpd 0))
        sender killUpd) targetId = some t' := ht'
    rw [mapGet_mapUpdate] at hx
    by_cases hs : sender = targetId
    · rw [if_pos hs, mapGet_mapUpdate, if_pos rfl, ht] at hx
      obtain rfl : killUpd (lethalUpd 0 t) = t' := by
        cases hx
        rfl
      refine ⟨le_refl 0, rfl, fun h1 h2 h3 => h2⟩
    · rw [if_neg hs, mapGet_mapUpdate, if_pos rfl, ht] at hx
      obtain rfl : lethalUpd 0 t = t' := by
        cases hx
        rfl
      refine ⟨le_refl 0, rfl, fun h1 h2 h3 => h2⟩
  · rw [playerDamage_nonlethal ht ha hl] at ht'
    have hx : mapGet (mapUpdate g.players targetId
        (hpUpd (max 0 (t.hp - dmg.getD 10)))) targetId = some t' := ht'
    rw [mapGet_mapUpdate, if_pos rfl, ht] at hx
    obtain rfl : hpUpd (max 0 (t.hp - dmg.getD 10)) t = t' := by
      cases hx
      rfl
    refine ⟨le_max_left 0 _, rfl, fun h1 h2 h3 => ?_⟩
    show max 0 (t.hp - dmg.getD 10) ≤ t.maxHp
    omega

/-- The PlayerState of connection t after 30 damage in gmBase. -/
def gmT70 : PlayerState :=
  ⟨"t", "Player", 0, -5, 0, 0, true, 70, 100, true, 0, 0⟩

/-- Witness for the amended C5: a concrete 30-damage hit stays in
[0, maxHp]. -/
theorem C5_amended_witness_concrete :
    0 ≤ gmT70.hp ∧ gmT70.hp ≤ gmT70.maxHp := by
  have h := (C5_amended_damage_bounds gmBase "s" "t" (some 30)).1 gmT0 gmT70
    (by decide) (by decide) (by decide)
  exact ⟨h.1, h.2.2 (by decide) (by decide) (by decide)⟩

/-- C9: a lethal self-damage event (sender = target) marks the sender not
alive, increments their deaths by 1 and also increments their own kills
by 1: the attacker lookup happens after the target mutation and finds the
sender's own record, so self-elimination grants a kill credit. -/
theorem C9_lethal_self_damage_grants_kill (g : Game) (sid : String)
    (t : PlayerState) (dmg : Option Int) (h : mapGet g.players sid = some t)
    (ha : t.alive = true) (hl : max 0 (t.hp - dmg.getD 10) = 0) :
    ∃ t', mapGet (playerDamage g sid sid dmg).players sid = some t' ∧
      t'.alive = false ∧ t'.deaths = t.deaths + 1 ∧
      t'.kills = t.kills + 1 := by
  have hplayers : (playerDamage g sid sid dmg).players
      = mapUpdate (mapUpdate g.players sid (lethalUpd 0)) sid killUpd := by
    rw [playerDamage_lethal h ha hl]
  rw [hplayers, mapGet_mapUpdate, if_pos rfl, mapGet_mapUpdate, if_pos rfl, h]
  exact ⟨killUpd (lethalUpd 0 t), rfl, rfl, rfl, rfl⟩

/-! ## Sequences of damage events against a single target -/

/-- One player:damage event against the fixed target: the sending
connection and the damage payload field. -/
structure DmgEv where
  sender : String
  dmg : Option Int
  deriving DecidableEq

/-- Processing of a sequence of player:damage events against target T. -/
def applyDmgSeq (g : Game) (T : String) (evs : List DmgEv) : Game :=
  evs.foldl (fun g e => playerDamage g e.sender T e.dmg) g

/-- The kill counter of a session, 0 when it has no PlayerState. -/
def killsOf (g : Game) (sid : String) : Nat :=
  ((mapGet g.players sid).map PlayerState.kills).getD 0

theorem applyDmgSeq_cons (g : Game) (T : String) (e : DmgEv)
    (evs : List DmgEv) :
    applyDmgSeq g T (e :: evs)
      = applyDmgSeq (playerDamage g e.sender T e.dmg) T evs := rfl

theorem applyDmgSeq_dead {g : Game} {T : String} {t : PlayerState}
    (evs : List DmgEv) (h : mapGet g.players T = some t)
    (ha : t.alive = false) : applyDmgSeq g T evs = g := by
  induction evs with
  | nil => rfl
  | cons e evs ih =>
    rw [applyDmgSeq_cons, playerDamage_dead e.dmg h ha]
    exact ih

theorem getD_kills_mapUpdate (m : List (String × PlayerState)) (k : String)
    (f : PlayerState → PlayerState) (sid : String)
    (hf : ∀ p, (f p).kills = p.kills) :
    ((mapGet (mapUpdate m k f) sid).map PlayerState.kills).getD 0
      = ((mapGet m sid).map PlayerState.kills).getD 0 := by
  rw [mapGet_mapUpdate]
  by_cases h : k = sid
  · rw [if_pos h]
    cases mapGet m sid <;> simp [hf]
  · rw [if_neg h]

/-- Inductive core for C6: processing any sequence of damage events
against a living target either leaves it alive with deaths and all kill
counters untouched, or splits at the unique lethal event: the target dies
exactly there with deaths incremented exactly once, the sender of that
event (if distinct from the target and tracked) gains exactly one kill,
nobody else gains any, no kill changed before the lethal event, and every
event after it leaves the state completely unchanged. -/
theorem dmgSeq_split (T : String) (evs : List DmgEv) :
    ∀ (g : Game) (t0 : PlayerState), mapGet g.players T = some t0 →
    t0.alive = true →
    ((∃ t', mapGet (applyDmgSeq g T evs).players T = some t' ∧
        t'.alive = true ∧ t'.deaths = t0.deaths ∧
        ∀ sid, killsOf (applyDmgSeq g T evs) sid = killsOf g sid) ∨
     (∃ evs1 ev evs2,
        evs = evs1 ++ ev :: evs2 ∧
        (∃ tMid, mapGet (applyDmgSeq g T evs1).players T = some tMid ∧
          tMid.alive = true ∧ tMid.deaths = t0.deaths ∧
          max 0 (tMid.hp - ev.dmg.getD 10) = 0) ∧
        (∃ tDead, mapGet (applyDmgSeq g T (evs1 ++ [ev])).players T
            = some tDead ∧
          tDead.alive = false ∧ tDead.deaths = t0.deaths + 1) ∧
        (ev.sender ≠ T →
          mapHas (applyDmgSeq g T evs1).players ev.sender = true →
          killsOf (applyDmgSeq g T (evs1 ++ [ev])) ev.sender
            = killsOf (applyDmgSeq g T evs1) ev.sender + 1) ∧
        (∀ sid, sid ≠ ev.sender →
          killsOf (applyDmgSeq g T (evs1 ++ [ev])) sid
            = killsOf (applyDmgSeq g T evs1) sid) ∧
        (∀ sid, killsOf (applyDmgSeq g T evs1) sid = killsOf g sid) ∧
        applyDmgSeq g T evs = applyDmgSeq g T (evs1 ++ [ev]))) := by
  induction evs with
  | nil =>
    intro g t0 h ha
    exact Or.inl ⟨t0, h, ha, rfl, fun sid => rfl⟩
  | cons ev evs ih =>
    intro g t0 h ha
    by_cases hl : max 0 (t0.hp - ev.dmg.getD 10) = 0
    · -- the head event is lethal
      right
      have hplayers : (playerDamage g ev.sender T ev.dmg).players
          = mapUpdate (mapUpdate g.players T (lethalUpd 0)) ev.sender
              killUpd := by
        rw [playerDamage_lethal h ha hl]
      have hone : applyDmgSeq g T ([] ++ [ev])
          = playerDamage g ev.sender T ev.dmg := rfl
      have hdead : ∃ tDead,
          mapGet (applyDmgSeq g T ([] ++ [ev])).players T = some tDead ∧
          tDead.alive = false ∧ tDead.deaths = t0.deaths + 1 := by
        rw [hone, hplayers, mapGet_mapUpdate]
        by_cases hs : ev.sender = T
        · rw [if_pos hs, mapGet_mapUpdate, if_pos rfl, h]
          exact ⟨killUpd (lethalUpd 0 t0), rfl, rfl, rfl⟩
        · rw [if_neg hs, mapGet_mapUpdate, if_pos rfl, h]
          exact ⟨lethalUpd 0 t0, rfl, rfl, rfl⟩
      obtain ⟨tDead, htd, htd1, htd2⟩ := hdead
      refine ⟨[], ev, evs, rfl, ⟨t0, h, ha, rfl, hl⟩, ⟨tDead, htd, htd1, htd2⟩,
        ?_, ?_, fun sid => rfl, ?_⟩
      · intro hsne hhas
        show killsOf (applyDmgSeq g T ([] ++ [ev])) ev.sender
          = killsOf g ev.sender + 1
        rw [hone]
        show ((mapGet (playerDamage g ev.sender T ev.dmg).players
          ev.sender).map PlayerState.kills).getD 0 = _
        rw [hplayers, mapGet_mapUpdate, if_pos rfl, mapGet_mapUpdate,
          if_neg (fun hh => hsne hh.symm)]
        have hhas2 : mapHas g.players ev.sender = true := hhas
        obtain ⟨w, hw⟩ := Option.isSome_iff_exists.1 hhas2
        rw [hw]
        simp [killsOf, hw, killUpd]
      · intro sid hsid
        show killsOf (applyDmgSeq g T ([] ++ [ev])) sid = killsOf g sid
        rw [hone]
        show ((mapGet (playerDamage g ev.sender T ev.dmg).players
          sid).map PlayerState.kills).getD 0 = _
        rw [hplayers, mapGet_mapUpdate, if_neg (fun hh => hsid hh.symm)]
        exact getD_kills_mapUpdate _ T (lethalUpd 0) sid (fun p => rfl)
      · rw [applyDmgSeq_cons, hone]
        exact applyDmgSeq_dead evs htd htd1
    · -- the head event is non-lethal
      have hstep : (playerDamage g ev.sender T ev.dmg).players
          = mapUpdate g.players T
              (hpUpd (max 0 (t0.hp - ev.dmg.getD 10))) := by
        rw [playerDamage_nonlethal h ha hl]
      have ht1 : mapGet (playerDamage g ev.sender T ev.dmg).players T
          = some (hpUpd (max 0 (t0.hp - ev.dmg.getD 10)) t0) := by
        rw [hstep, mapGet_mapUpdate, if_pos rfl, h]
        rfl
      have hkills1 : ∀ sid, killsOf (playerDamage g ev.sender T ev.dmg) sid
          = killsOf g sid := by
        intro sid
        show ((mapGet (playerDamage g ev.sender T ev.dmg).players sid).map
          PlayerState.kills).getD 0 = _
        rw [hstep]
        exact getD_kills_mapUpdate _ _ _ _ (fun p => rfl)
      rcases ih (playerDamage g ev.sender T ev.dmg)
          (hpUpd (max 0 (t0.hp - ev.dmg.getD 10)) t0) ht1 ha with hleft | hright
      · obtain ⟨t', ht', ht'a, ht'd, ht'k⟩ := hleft
        refine Or.inl ⟨t', ?_, ht'a, ht'd, ?_⟩
        · rw [applyDmgSeq_cons]
          exact ht'
        · intro sid
          rw [applyDmgSeq_cons, ht'k sid, hkills1 sid]
      · obtain ⟨evs1, ev', evs2, heq, hmid, hdead, hcred, hoth, hpre, hfin⟩ :=
          hright
        refine Or.inr ⟨ev :: evs1, ev', evs2, ?_, ?_, ?_, ?_, ?_, ?_, ?_⟩
        · rw [heq]
          rfl
        · obtain ⟨tMid, h1, h2, h3, h4⟩ := hmid
          refine ⟨tMid, ?_, h2, h3, h4⟩
          rw [applyDmgSeq_cons]
          exact h1
        · obtain ⟨tDead, h1, h2, h3⟩ := hdead
          refine ⟨tDead, ?_, h2, h3⟩
          rw [List.cons_append, applyDmgSeq_cons]
          exact h1
        · intro hsne hhas
          rw [List.cons_append, applyDmgSeq_cons, applyDmgSeq_cons]
          exact hcred hsne (by rw [applyDmgSeq_cons] at hhas; exact hhas)
        · intro sid hsid
          rw [List.cons_append, applyDmgSeq_cons, applyDmgSeq_cons]
          exact hoth sid hsid
        · intro sid
          rw [applyDmgSeq_cons, hpre sid, hkills1 sid]
        · rw [applyDmgSeq_cons, List.cons_append, applyDmgSeq_cons]
          exact hfin

/-- C6: for every sequence of player:damage events against one target
that starts with hp = maxHp = 100 and alive = true, either no event was
lethal (the target is still alive, its deaths counter is unchanged and no
kill counter anywhere changed), or the sequence splits at the unique
event whose damage makes hp reach exactly 0: alive is cleared exactly by
that event, deaths is incremented by exactly 1 in total, only that event
credits a kill, its sender gains exactly one kill when sender ≠ target
(and tracked), every other counter is untouched, and all later events
against the now-dead target change nothing. -/
theorem C6_alive_cleared_once_deaths_kills_once (g : Game) (T : String)
    (evs : List DmgEv) (t0 : PlayerState)
    (h : mapGet g.players T = some t0) (hhp : t0.hp = 100)
    (hmax : t0.maxHp = 100) (ha : t0.alive = true) :
    ((∃ t', mapGet (applyDmgSeq g T evs).players T = some t' ∧
        t'.alive = true ∧ t'.deaths = t0.deaths ∧
        ∀ sid, killsOf (applyDmgSeq g T evs) sid = killsOf g sid) ∨
     (∃ evs1 ev evs2,
        evs = evs1 ++ ev :: evs2 ∧
        (∃ tMid, mapGet (applyDmgSeq g T evs1).players T = some tMid ∧
          tMid.alive = true ∧ tMid.deaths = t0.deaths ∧
          max 0 (tMid.hp - ev.dmg.getD 10) = 0) ∧
        (∃ tDead, mapGet (applyDmgSeq g T (evs1 ++ [ev])).players T
            = some tDead ∧
          tDead.alive = false ∧ tDead.deaths = t0.deaths + 1) ∧
        (ev.sender ≠ T →
          mapHas (applyDmgSeq g T evs1).players ev.sender = true →
          killsOf (applyDmgSeq g T (evs1 ++ [ev])) ev.sender
            = killsOf (applyDmgSeq g T evs1) ev.sender + 1) ∧
        (∀ sid, sid ≠ ev.sender →
          killsOf (applyDmgSeq g T (evs1 ++ [ev])) sid
            = killsOf (applyDmgSeq g T evs1) sid) ∧
        (∀ sid, killsOf (applyDmgSeq g T evs1) sid = killsOf g sid) ∧
        applyDmgSeq g T evs = applyDmgSeq g T (evs1 ++ [ev]))) :=
  dmgSeq_split T evs g t0 h ha

/-- Three damage events against t: 60, then the lethal 40, then 10. -/
def c6evs : List DmgEv := [⟨"s", some 60⟩, ⟨"s", some 40⟩, ⟨"s", some 10⟩]

/-- Witness for C6: the concrete 60 + 40 + 10 sequence against t. -/
theorem C6_witness_concrete_sequence :
    ((∃ t', mapGet (applyDmgSeq gmBase "t" c6evs).players "t" = some t' ∧
        t'.alive = true ∧ t'.deaths = gmT0.deaths ∧
        ∀ sid, killsOf (applyDmgSeq gmBase "t" c6evs) sid
          = killsOf gmBase sid) ∨
     (∃ evs1 ev evs2,
        c6evs = evs1 ++ ev :: evs2 ∧
        (∃ tMid, mapGet (applyDmgSeq gmBase "t" evs1).players "t"
            = some tMid ∧
          tMid.alive = true ∧ tMid.deaths = gmT0.deaths ∧
          max 0 (tMid.hp - ev.dmg.getD 10) = 0) ∧
        (∃ tDead, mapGet (applyDmgSeq gmBase "t" (evs1 ++ [ev])).players "t"
            = some tDead ∧
          tDead.alive = false ∧ tDead.deaths = gmT0.deaths + 1) ∧
        (ev.sender ≠ "t" →
          mapHas (applyDmgSeq gmBase "t" evs1).players ev.sender = true →
          killsOf (applyDmgSeq gmBase "t" (evs1 ++ [ev])) ev.sender
            = killsOf (applyDmgSeq gmBase "t" evs1) ev.sender + 1) ∧
        (∀ sid, sid ≠ ev.sender →
          killsOf (applyDmgSeq gmBase "t" (evs1 ++ [ev])) sid
            = killsOf (applyDmgSeq gmBase "t" evs1) sid) ∧
        (∀ sid, killsOf (applyDmgSeq gmBase "t" evs1) sid
          = killsOf gmBase sid) ∧
        applyDmgSeq gmBase "t" c6evs
          = applyDmgSeq gmBase "t" (evs1 ++ [ev]))) :=
  C6_alive_cleared_once_deaths_kills_once gmBase "t" c6evs gmT0 (by decide)
    rfl rfl rfl

/-- Witness for C9: connection t self-destructs with 150 damage. -/
theorem C9_witness_concrete_self_kill :
    (mapGet (playerDamage gmBase "t" "t" (some 150)).players "t").map
      (fun p => (p.alive, p.deaths, p.kills)) = some (false, 1, 1) := by
  obtain ⟨t', ht', h1, h2, h3⟩ := C9_lethal_self_damage_grants_kill gmBase "t"
    gmT0 (some 150) (by decide) (by decide) (by decide)
  rw [ht']
  have h2' : t'.deaths = 1 := h2
  have h3' : t'.kills = 1 := h3
  simp [h1, h2', h3']

/-! ## Tick and match timer -/

theorem fdiv1000_mono {a b : Int} (h : a ≤ b) :
    Int.fdiv a 1000 ≤ Int.fdiv b 1000 := by
  rw [Int.fdiv_eq_ediv _ (by omega), Int.fdiv_eq_ediv _ (by omega)]
  exact Int.ediv_le_ediv (by omega) h

/-- The value tick writes into remainingSec at wall time now. -/
def remAt (g : Game) (now : Int) : Int :=
  max 0 (g.durationSec - Int.fdiv (now - g.matchStartTime) 1000)

/-- The state after a tick on a non-playing session. -/
def tickIdle (g : Game) (now : Int) : Game :=
  { g with tickCount := g.tickCount + 1, serverTime := now }

/-- The state after a tick on a playing session that does not end it. -/
def tickRun (g : Game) (now : Int) : Game :=
  { g with tickCount := g.tickCount + 1, serverTime := now,
           remainingSec := remAt g now }

/-- The state after the tick that ends the match. -/
def tickEnd (g : Game) (now : Int) : Game :=
  { g with tickCount := g.tickCount + 1, serverTime := now,
           remainingSec := remAt g now, status := "finished" }

theorem gameTick_eq (g : Game) (now : Int) :
    gameTick g now = (gameTickRes g now).1 := rfl

theorem runTicks_cons (g : Game) (t : Int) (ts : List Int) :
    runTicks g (t :: ts)
      = ((runTicks (gameTickRes g t).1 ts).1,
         (if (gameTickRes g t).2 then 1 else 0)
           + (runTicks (gameTickRes g t).1 ts).2) := rfl

theorem gameTickRes_notPlaying {g : Game} (now : Int)
    (h : ¬ g.status = "playing") :
    gameTickRes g now = (tickIdle g now, false) := by
  unfold gameTickRes tickIdle
  simp [h]

theorem gameTickRes_playing_run {g : Game} {now : Int}
    (h : g.status = "playing") (hrem : ¬ remAt g now = 0) :
    gameTickRes g now = (tickRun g now, false) := by
  unfold remAt at hrem
  unfold gameTickRes tickRun remAt
  simp [h, hrem]

theorem gameTickRes_playing_end {g : Game} {now : Int}
    (h : g.status = "playing") (hrem : remAt g now = 0) :
    gameTickRes g now = (tickEnd g now, true) := by
  unfold remAt at hrem
  unfold gameTickRes endMatch tickEnd remAt
  simp [h, hrem]

theorem tickEnd_status (g : Game) (now : Int) :
    (tickEnd g now).status = "finished" := rfl

theorem tickRun_remAt (g : Game) (now now' : Int) :
    remAt (tickRun g now) now' = remAt g now' := rfl

theorem runTicks_notPlaying {g : Game} (ts : List Int)
    (h : ¬ g.status = "playing") : (runTicks g ts).2 = 0 := by
  induction ts generalizing g with
  | nil => rfl
  | cons t ts ih =>
    rw [runTicks_cons, gameTickRes_notPlaying t h]
    simpa using ih (g := tickIdle g t) h

theorem runTicks_le_one {g : Game} (ts : List Int)
    (h : g.status = "playing") : (runTicks g ts).2 ≤ 1 := by
  induction ts generalizing g with
  | nil => simp [runTicks]
  | cons t ts ih =>
    by_cases hrem : remAt g t = 0
    · rw [runTicks_cons, gameTickRes_playing_end h hrem]
      have h2 := runTicks_notPlaying (g := tickEnd g t) ts (by
        rw [tickEnd_status]
        decide)
      simp [h2]
    · rw [runTicks_cons, gameTickRes_playing_run h hrem]
      simpa using ih (g := tickRun g t) h

theorem runTicks_eq_one {g : Game} (ts : List Int)
    (h : g.status = "playing")
    (hex : ∃ t ∈ ts, g.durationSec ≤ Int.fdiv (t - g.matchStartTime) 1000) :
    (runTicks g ts).2 = 1 := by
  induction ts generalizing g with
  | nil =>
    obtain ⟨t, ht, -⟩ := hex
    cases ht
  | cons t ts ih =>
    by_cases hrem : remAt g t = 0
    · rw [runTicks_cons, gameTickRes_playing_end h hrem]
      have h2 := runTicks_notPlaying (g := tickEnd g t) ts (by
        rw [tickEnd_status]
        decide)
      simp [h2]
    · rw [runTicks_cons, gameTickRes_playing_run h hrem]
      obtain ⟨t0, ht0, hle⟩ := hex
      rcases List.mem_cons.1 ht0 with h1 | h1
      · exfalso
        subst h1
        unfold remAt at hrem
        omega
      · simpa using ih (g := tickRun g t) h ⟨t0, h1, hle⟩

/-- C7: while a Game Session is playing, remainingSec as recomputed by
successive ticks from elapsed wall clock time is monotonically
non-increasing (given non-decreasing tick times) and never negative; a
tick moves the status to finished exactly when the recomputed remainingSec
is exactly 0; and over any run of ticks endMatch fires at most once, and
exactly once as soon as some tick time reaches matchStartTime plus the
match duration. -/
theorem C7_remaining_monotone_finish_once :
    (∀ (g : Game) (now now' : Int), g.status = "playing" → now ≤ now' →
      (gameTick (gameTick g now) now').remainingSec
        ≤ (gameTick g now).remainingSec) ∧
    (∀ (g : Game) (now : Int), g.status = "playing" →
      0 ≤ (gameTick g now).remainingSec) ∧
    (∀ (g : Game) (now : Int), g.status = "playing" →
      ((gameTick g now).status = "finished" ↔
        (gameTick g now).remainingSec = 0)) ∧
    (∀ (g : Game) (ts : List Int), g.status = "playing" →
      (runTicks g ts).2 ≤ 1) ∧
    (∀ (g : Game) (ts : List Int), g.status = "playing" →
      (∃ t ∈ ts, g.durationSec ≤ Int.fdiv (t - g.matchStartTime) 1000) →
      (runTicks g ts).2 = 1) := by
  refine ⟨?_, ?_, ?_, fun g ts h => runTicks_le_one ts h,
    fun g ts h hex => runTicks_eq_one ts h hex⟩
  · intro g now now' hp hle
    by_cases hrem : remAt g now = 0
    · have hinner : gameTick g now = tickEnd g now := by
        rw [gameTick_eq, gameTickRes_playing_end hp hrem]
      rw [hinner, gameTick_eq, gameTickRes_notPlaying now' (by
        rw [tickEnd_status]
        decide)]
      exact le_refl _
    · have hinner : gameTick g now = tickRun g now := by
        rw [gameTick_eq, gameTickRes_playing_run hp hrem]
      rw [hinner]
      have hmono : remAt (tickRun g now) now' ≤ remAt g now := by
        rw [tickRun_remAt]
        unfold remAt
        have := fdiv1000_mono (a := now - g.matchStartTime)
          (b := now' - g.matchStartTime) (by omega)
        omega
      have hps : (tickRun g now).status = "playing" := hp
      by_cases hrem2 : remAt (tickRun g now) now' = 0
      · rw [gameTick_eq, gameTickRes_playing_end hps hrem2]
        exact hmono
      · rw [gameTick_eq, gameTickRes_playing_run hps hrem2]
        exact hmono
  · intro g now hp
    by_cases hrem : remAt g now = 0
    · rw [gameTick_eq, gameTickRes_playing_end hp hrem]
      exact le_max_left 0 _
    · rw [gameTick_eq, gameTickRes_playing_run hp hrem]
      exact le_max_left 0 _
  · intro g now hp
    by_cases hrem : remAt g now = 0
    · rw [gameTick_eq, gameTickRes_playing_end hp hrem]
      constructor
      · intro _
        exact hrem
      · intro _
        rfl
    · rw [gameTick_eq, gameTickRes_playing_run hp hrem]
      constructor
      · intro hfin
        have h2 : g.status = "finished" := hfin
        rw [hp] at h2
        exact absurd h2 (by decide)
      · intro h0
        exact absurd h0 hrem

/-- A playing game whose match started at time 0 with 300 second
duration. -/
def gmPlaying : Game :=
  { Game.init [] with status := "playing", matchStartTime := 0 }

/-- Witness for C7: two ticks at 100000 and 200000 ms, then a full run of
four ticks whose third reaches the 300 second deadline. -/
theorem C7_witness_concrete_ticks :
    (gameTick (gameTick gmPlaying 100000) 200000).remainingSec
      ≤ (gameTick gmPlaying 100000).remainingSec ∧
    0 ≤ (gameTick gmPlaying 100000).remainingSec ∧
    ((gameTick gmPlaying 100000).status = "finished" ↔
      (gameTick gmPlaying 100000).remainingSec = 0) ∧
    (runTicks gmPlaying [100000, 200000, 300000, 301000]).2 ≤ 1 ∧
    (runTicks gmPlaying [100000, 200000, 300000, 301000]).2 = 1 := by
  obtain ⟨h1, h2, h3, h4, h5⟩ := C7_remaining_monotone_finish_once
  exact ⟨h1 gmPlaying 100000 200000 rfl (by decide),
    h2 gmPlaying 100000 rfl, h3 gmPlaying 100000 rfl,
    h4 gmPlaying [100000, 200000, 300000, 301000] rfl,
    h5 gmPlaying [100000, 200000, 300000, 301000] rfl
      ⟨300000, by decide, by decide⟩⟩

/-! ## The alive flag is absorbing once false -/

theorem mapGet_alive_mapUpdate_false {m : List (String × PlayerState)}
    {k : String} {f : PlayerState → PlayerState} {sid : String}
    {p : PlayerState} (hf : ∀ q, (f q).alive = true → q.alive = true)
    (h : mapGet m sid = some p) (ha : p.alive = false) :
    ∃ p', mapGet (mapUpdate m k f) sid = some p' ∧ p'.alive = false := by
  rw [mapGet_mapUpdate]
  by_cases hk : k = sid
  · rw [if_pos hk, h]
    refine ⟨f p, rfl, ?_⟩
    cases hfp : (f p).alive
    · rfl
    · have := hf p hfp
      rw [ha] at this
      cases this
  · rw [if_neg hk, h]
    exact ⟨p, rfl, ha⟩

theorem mapGet_alive_mapUpdate_rev {m : List (String × PlayerState)}
    {k : String} {f : PlayerState → PlayerState} {sid : String}
    {p' : PlayerState} (hf : ∀ q, (f q).alive = true → q.alive = true)
    (h : mapGet (mapUpdate m k f) sid = some p') (ha : p'.alive = true) :
    ∃ p, mapGet m sid = some p ∧ p.alive = true := by
  rw [mapGet_mapUpdate] at h
  by_cases hk : k = sid
  · rw [if_pos hk] at h
    obtain ⟨p, hp, hq⟩ := Option.map_eq_some'.1 h
    refine ⟨p, hp, hf p ?_⟩
    rw [hq]
    exact ha
  · rw [if_neg hk] at h
    exact ⟨p', h, ha⟩

/-- The PlayerState created by gameOnJoin. -/
def joinPS (g : Game) (sid : String) : PlayerState :=
  let name := ((g.roster.find? (fun e => e.1 == sid)).map
    (fun e => e.2)).getD "Player"
  let team : Nat := if g.teamA.length < 2 then 0 else 1
  { sessionId := sid, name := name, team := team,
    x := if team = 0 then -5 else 5, y := 0, animSpeed := 0,
    facingRight := true, hp := 100, maxHp := 100, alive := true,
    kills := 0, deaths := 0 }

theorem gameOnJoin_players_reject {g : Game} {sid : String} (now : Int)
    (h : g.roster ≠ [] ∧ ¬ (g.roster.any (fun e => e.1 == sid)) = true) :
    (gameOnJoin g sid now).players = g.players := by
  unfold gameOnJoin
  rw [if_pos h]

theorem gameOnJoin_players_accept {g : Game} {sid : String} (now : Int)
    (h : ¬ (g.roster ≠ [] ∧ ¬ (g.roster.any (fun e => e.1 == sid)) = true)) :
    (gameOnJoin g sid now).players = mapSet g.players sid (joinPS g sid) := by
  unfold gameOnJoin joinPS startMatch
  rw [if_neg h]
  dsimp only
  split <;> split <;> rfl

theorem skillCast_players (g : Game) (sid : String) (st : Option String)
    (dx dy : Option Int) (now : Int) :
    (skillCast g sid st dx dy now).players = g.players := by
  unfold skillCast
  cases mapGet g.players sid with
  | none => rfl
  | some p => by_cases hp : p.alive = false <;> simp [hp]

theorem playerMove_missing {g : Game} {sid : String}
    (x y a : Option Int) (fr : Option Bool)
    (h : mapGet g.players sid = none) : playerMove g sid x y a fr = g := by
  unfold playerMove
  rw [h]

theorem playerMove_dead {g : Game} {sid : String} {p : PlayerState}
    (x y a : Option Int) (fr : Option Bool)
    (h : mapGet g.players sid = some p) (ha : p.alive = false) :
    playerMove g sid x y a fr = g := by
  unfold playerMove
  rw [h]
  simp [ha]

theorem playerMove_alive {g : Game} {sid : String} {p : PlayerState}
    (x y a : Option Int) (fr : Option Bool)
    (h : mapGet g.players sid = some p) (ha : ¬ p.alive = false) :
    (playerMove g sid x y a fr).players
      = mapUpdate g.players sid (moveUpd x y a fr) := by
  unfold playerMove
  rw [h]
  simp [ha]

theorem gameTick_players (g : Game) (now : Int) :
    (gameTick g now).players = g.players := by
  rw [gameTick_eq]
  by_cases h : g.status = "playing"
  · by_cases hrem : remAt g now = 0
    · rw [gameTickRes_playing_end h hrem]
      rfl
    · rw [gameTickRes_playing_run h hrem]
      rfl
  · rw [gameTickRes_notPlaying now h]
    rfl

/-- C10: the alive flag of a PlayerState is absorbing once false.  For
every operation of the Game Session (player:move, skill:cast,
player:damage, join, leave, tick) such that any join carries a session id
not already tracked (session ids are unique per connection), a record
that is not alive stays present and not alive, and a record that is alive
after the operation either was alive before or was freshly created (with
alive = true) by onJoin for a previously untracked session id: no
operation revives a PlayerState. -/
theorem C10_alive_absorbing (g : Game) (op : GOp)
    (hfresh : ∀ sid now, op = GOp.join sid now →
      mapHas g.players sid = false) :
    (∀ sid p, mapGet g.players sid = some p → p.alive = false →
      ∃ p', mapGet (Game.step g op).players sid = some p' ∧
        p'.alive = false) ∧
    (∀ sid p', mapGet (Game.step g op).players sid = some p' →
      p'.alive = true →
      (∃ p, mapGet g.players sid = some p ∧ p.alive = true) ∨
      (∃ now, op = GOp.join sid now ∧ mapGet g.players sid = none)) := by
  cases op with
  | join sid' now =>
    have hhas := hfresh sid' now rfl
    have hnone : mapGet g.players sid' = none := by
      simpa [mapHas] using hhas
    by_cases hrej : g.roster ≠ [] ∧ ¬ (g.roster.any (fun e => e.1 == sid')) = true
    · have hpl : (Game.step g (GOp.join sid' now)).players = g.players :=
        gameOnJoin_players_reject now hrej
      rw [hpl]
      exact ⟨fun sid p h ha => ⟨p, h, ha⟩, fun sid p' h ha => Or.inl ⟨p', h, ha⟩⟩
    · have hpl : (Game.step g (GOp.join sid' now)).players
          = mapSet g.players sid' (joinPS g sid') :=
        gameOnJoin_players_accept now hrej
      rw [hpl]
      constructor
      · intro sid p h ha
        rw [mapGet_mapSet]
        by_cases hk : sid' = sid
        · rw [← hk] at h
          rw [hnone] at h
          cases h
        · rw [if_neg hk]
          exact ⟨p, h, ha⟩
      · intro sid p' h ha
        rw [mapGet_mapSet] at h
        by_cases hk : sid' = sid
        · right
          refine ⟨now, by rw [hk], ?_⟩
          rw [← hk]
          exact hnone
        · rw [if_neg hk] at h
          exact Or.inl ⟨p', h, ha⟩
  | leave sid' =>
    have hf : ∀ q, (setDead q).alive = true → q.alive = true := by
      intro q hq
      cases hq
    constructor
    · intro sid p h ha
      exact mapGet_alive_mapUpdate_false hf h ha
    · intro sid p' h ha
      exact Or.inl (mapGet_alive_mapUpdate_rev hf h ha)
  | move sid' x y a fr =>
    cases hm : mapGet g.players sid' with
    | none =>
      have hpl : Game.step g (GOp.move sid' x y a fr) = g :=
        playerMove_missing x y a fr hm
      rw [hpl]
      exact ⟨fun sid p h ha => ⟨p, h, ha⟩, fun sid p' h ha => Or.inl ⟨p', h, ha⟩⟩
    | some q =>
      by_cases hq : q.alive = false
      · have hpl : Game.step g (GOp.move sid' x y a fr) = g :=
          playerMove_dead x y a fr hm hq
        rw [hpl]
        exact ⟨fun sid p h ha => ⟨p, h, ha⟩,
          fun sid p' h ha => Or.inl ⟨p', h, ha⟩⟩
      · have hpl : (Game.step g (GOp.move sid' x y a fr)).players
            = mapUpdate g.players sid' (moveUpd x y a fr) :=
          playerMove_alive x y a fr hm hq
        rw [hpl]
        have hf : ∀ p, (moveUpd x y a fr p).alive = true → p.alive = true :=
          fun p hp => hp
        exact ⟨fun sid p h ha => mapGet_alive_mapUpdate_false hf h ha,
          fun sid p' h ha => Or.inl (mapGet_alive_mapUpdate_rev hf h ha)⟩
  | cast sid' st dx dy now =>
    have hpl : (Game.step g (GOp.cast sid' st dx dy now)).players = g.players :=
      skillCast_players g sid' st dx dy now
    rw [hpl]
    exact ⟨fun sid p h ha => ⟨p, h, ha⟩, fun sid p' h ha => Or.inl ⟨p', h, ha⟩⟩
  | damage sender targetId dmg =>
    cases hm : mapGet g.players targetId with
    | none =>
      have hpl : Game.step g (GOp.damage sender targetId dmg) = g :=
        playerDamage_missing dmg hm
      rw [hpl]
      exact ⟨fun sid p h ha => ⟨p, h, ha⟩, fun sid p' h ha => Or.inl ⟨p', h, ha⟩⟩
    | some t =>
      by_cases ht : t.alive = false
      · have hpl : Game.step g (GOp.damage sender targetId dmg) = g :=
          playerDamage_dead dmg hm ht
        rw [hpl]
        exact ⟨fun sid p h ha => ⟨p, h, ha⟩,
          fun sid p' h ha => Or.inl ⟨p', h, ha⟩⟩
      · have ht2 : t.alive = true := by
          cases h3 : t.alive
          · exact absurd h3 ht
          · rfl
        by_cases hl : max 0 (t.hp - dmg.getD 10) = 0
        · have hpl : (Game.step g (GOp.damage sender targetId dmg)).players
              = mapUpdate (mapUpdate g.players targetId (lethalUpd 0)) sender
                  killUpd := by
            show (playerDamage g sender targetId dmg).players = _
            rw [playerDamage_lethal hm ht2 hl]
          rw [hpl]
          have hf1 : ∀ q, (lethalUpd 0 q).alive = true → q.alive = true := by
            intro q hq
            cases hq
          have hf2 : ∀ q, (killUpd q).alive = true → q.alive = true :=
            fun q hq => hq
          constructor
          · intro sid p h ha
            obtain ⟨p1, hp1, ha1⟩ := mapGet_alive_mapUpdate_false hf1 h ha
            exact mapGet_alive_mapUpdate_false hf2 hp1 ha1
          · intro sid p' h ha
            obtain ⟨p1, hp1, ha1⟩ := mapGet_alive_mapUpdate_rev hf2 h ha
            exact Or.inl (mapGet_alive_mapUpdate_rev hf1 hp1 ha1)
        · have hpl : (Game.step g (GOp.damage sender targetId dmg)).players
              = mapUpdate g.players targetId
                  (hpUpd (max 0 (t.hp - dmg.getD 10))) := by
            show (playerDamage g sender targetId dmg).players = _
            rw [playerDamage_nonlethal hm ht2 hl]
          rw [hpl]
          have hf : ∀ q, (hpUpd (max 0 (t.hp - dmg.getD 10)) q).alive = true →
              q.alive = true := fun q hq => hq
          exact ⟨fun sid p h ha => mapGet_alive_mapUpdate_false hf h ha,
            fun sid p' h ha => Or.inl (mapGet_alive_mapUpdate_rev hf h ha)⟩
  | tick now =>
    have hpl : (Game.step g (GOp.tick now)).players = g.players :=
      gameTick_players g now
    rw [hpl]
    exact ⟨fun sid p h ha => ⟨p, h, ha⟩, fun sid p' h ha => Or.inl ⟨p', h, ha⟩⟩

/-- The state of gmBase after 100 lethal damage to t. -/
def gmDead : Game := playerDamage gmBase "s" "t" (some 100)

/-- The dead PlayerState of t in gmDead. -/
def gmTdead : PlayerState :=
  ⟨"t", "Player", 0, -5, 0, 0, true, 0, 100, false, 0, 1⟩

/-- Witness for C10: a move event sent for the dead player t leaves it
dead. -/
theorem C10_witness_concrete_dead_stays_dead :
    (mapGet (Game.step gmDead
      (GOp.move "t" (some 3) none none none)).players "t").map
      PlayerState.alive = some false := by
  obtain ⟨p', hp', ha'⟩ := (C10_alive_absorbing gmDead
    (GOp.move "t" (some 3) none none none)
    (by intro sid now h; cases h)).1 "t" gmTdead (by decide) (by decide)
  simp [hp', ha']

end SDBE
